import Mathlib

/-
  Verification development for the 3D-chess rules engine.

  The definitions below are a shallow embedding of the engine:
  `src/lib/gameLogic.ts` (board setup, attack detection, move generation)
  and the move applier / promotion handler of `src/App.tsx`.
  Coordinates are modelled as `Int` (JS numbers used as array indices),
  the 8x8x8 board as a function from coordinates to an optional piece.
-/

set_option maxHeartbeats 1000000

namespace ThreeDChess

/-- Piece colors (`'white' | 'black'` in `src/types`). -/
inductive Color where
  | white
  | black
deriving DecidableEq, Repr

/-- The opposing color (`color === 'white' ? 'black' : 'white'`). -/
def Color.opp : Color → Color
  | .white => .black
  | .black => .white

/-- Piece kinds, the one-letter codes of `Piece['type']` in `src/types`. -/
inductive PieceType where
  | P
  | N
  | B
  | R
  | Q
  | K
deriving DecidableEq, Repr

/-- `Piece` of `src/types`: kind, color, denormalized position, hasMoved. -/
structure Piece where
  type : PieceType
  color : Color
  x : Int
  y : Int
  z : Int
  hasMoved : Bool
deriving DecidableEq, Repr

/-- The two castle tags (`castle?: 'king' | 'queen'`). -/
inductive CastleSide where
  | king
  | queen
deriving DecidableEq, Repr

/-- `Move` of `src/types`: destination, capture flag, optional castle tag. -/
structure Move where
  x : Int
  y : Int
  z : Int
  capture : Bool
  castle : Option CastleSide
deriving DecidableEq, Repr

/-- `BoardState` of `src/types`: the 8x8x8 cell store, indexed `[x][y][z]`;
a cell outside the cube holds nothing (JS indexing yields `undefined`). -/
abbrev BoardState := Int → Int → Int → Option Piece

/-- `SIZE = 8` from `src/types`. -/
def SIZE : Int := 8

/-- `isWithinBounds` of `src/lib/gameLogic.ts`. -/
def isWithinBounds (x y z : Int) : Bool :=
  decide (x ≥ 0) && decide (x < SIZE) && decide (y ≥ 0) && decide (y < SIZE) &&
    decide (z ≥ 0) && decide (z < SIZE)

/-- The 8 horizontal pawn-capture offsets, `(dx, dy)` with
`dx, dy ∈ {-1,0,1}` skipping `(0,0)`, in the source's loop order. -/
def pawnCaptureDirections : List (Int × Int) :=
  [(-1, -1), (-1, 0), (-1, 1), (0, -1), (0, 1), (1, -1), (1, 0), (1, 1)]

/-- The 24 knight-leap offsets, exactly the literal table of the source
(used both by the attack detector and the knight move generator). -/
def knightOffsets : List (Int × Int × Int) :=
  [(2, 1, 0), (2, -1, 0), (-2, 1, 0), (-2, -1, 0),
   (1, 2, 0), (1, -2, 0), (-1, 2, 0), (-1, -2, 0),
   (2, 0, 1), (2, 0, -1), (-2, 0, 1), (-2, 0, -1),
   (1, 0, 2), (1, 0, -2), (-1, 0, 2), (-1, 0, -2),
   (0, 2, 1), (0, 2, -1), (0, -2, 1), (0, -2, -1),
   (0, 1, 2), (0, 1, -2), (0, -1, 2), (0, -1, -2)]

/-- The 26 nonzero unit directions `{-1,0,1}³ \ {0}`, in the source's
triple-loop order (`dx` outermost, `dz` innermost). -/
def all3DDirections : List (Int × Int × Int) :=
  [(-1, -1, -1), (-1, -1, 0), (-1, -1, 1),
   (-1, 0, -1), (-1, 0, 0), (-1, 0, 1),
   (-1, 1, -1), (-1, 1, 0), (-1, 1, 1),
   (0, -1, -1), (0, -1, 0), (0, -1, 1),
   (0, 0, -1), (0, 0, 1),
   (0, 1, -1), (0, 1, 0), (0, 1, 1),
   (1, -1, -1), (1, -1, 0), (1, -1, 1),
   (1, 0, -1), (1, 0, 0), (1, 0, 1),
   (1, 1, -1), (1, 1, 0), (1, 1, 1)]

/-- The forward z-direction of a pawn of the given color
(`color === 'white' ? 1 : -1`, computed identically in `isSquareAttacked`
and the pawn branch of `calculateValidMoves`). -/
def pawnZDir (c : Color) : Int := if c == Color.white then 1 else -1

/-- Whether a piece of kind `t` attacks along direction `(dx,dy,dz)` when
first met at step `k` of a ray: the Q/R/B/K conditions of the ray-casting
loop in `isSquareAttacked`. -/
def attackQualifies (t : PieceType) (dx dy dz : Int) (k : Nat) : Bool :=
  t == .Q || (t == .R && (dx.natAbs + dy.natAbs + dz.natAbs == 1)) ||
    (t == .B && decide (dx.natAbs + dy.natAbs + dz.natAbs > 1)) ||
    (t == .K && k == 1)

/-- One ray of the attack detector: step `k, k+1, ...` outward from
`(x,y,z)` along `(dx,dy,dz)` while in bounds, stopping at the first
occupied cell; `fuel` counts the remaining loop iterations
(the source iterates `k = 1 .. SIZE-1`, i.e. fuel `7` from `k = 1`). -/
def attackRay (b : BoardState) (attackerColor : Color)
    (x y z dx dy dz : Int) : Nat → Nat → Bool
  | _, 0 => false
  | k, fuel + 1 =>
    let checkX := x + dx * (k : Int)
    let checkY := y + dy * (k : Int)
    let checkZ := z + dz * (k : Int)
    if isWithinBounds checkX checkY checkZ then
      match b checkX checkY checkZ with
      | some piece =>
        if piece.color == attackerColor then
          attackQualifies piece.type dx dy dz k
        else false
      | none => attackRay b attackerColor x y z dx dy dz (k + 1) fuel
    else false

/-- `isSquareAttacked` of `src/lib/gameLogic.ts`: pawn threats one layer
behind, knight leaps, then ray casting for Q/R/B/K. -/
def isSquareAttacked (x y z : Int) (attackerColor : Color) (b : BoardState) : Bool :=
  (pawnCaptureDirections.any fun d =>
    isWithinBounds (x - d.1) (y - d.2) (z - pawnZDir attackerColor) &&
      match b (x - d.1) (y - d.2) (z - pawnZDir attackerColor) with
      | some piece => piece.type == .P && piece.color == attackerColor
      | none => false) ||
  (knightOffsets.any fun d =>
    isWithinBounds (x - d.1) (y - d.2.1) (z - d.2.2) &&
      match b (x - d.1) (y - d.2.1) (z - d.2.2) with
      | some piece => piece.type == .N && piece.color == attackerColor
      | none => false) ||
  (all3DDirections.any fun d =>
    attackRay b attackerColor x y z d.1 d.2.1 d.2.2 1 7)

/-- The scan order of `findKing`: `x` outermost, then `y`, then `z`. -/
def allCells : List (Int × Int × Int) :=
  ([0, 1, 2, 3, 4, 5, 6, 7] : List Int).flatMap fun x =>
    ([0, 1, 2, 3, 4, 5, 6, 7] : List Int).flatMap fun y =>
      ([0, 1, 2, 3, 4, 5, 6, 7] : List Int).map fun z => (x, y, z)

/-- `findKing` of `src/lib/gameLogic.ts`: first king of the color in scan
order, `none` when absent. -/
def findKing (kingColor : Color) (b : BoardState) : Option Piece :=
  allCells.findSome? fun c =>
    match b c.1 c.2.1 c.2.2 with
    | some piece =>
      if piece.type == .K && piece.color == kingColor then some piece else none
    | none => none

/-- `isKingInCheck` of `src/lib/gameLogic.ts`. -/
def isKingInCheck (kingColor : Color) (b : BoardState) : Bool :=
  match findKing kingColor b with
  | none => false
  | some king => isSquareAttacked king.x king.y king.z kingColor.opp b

/-- The pawn branch of `calculateValidMoves`: forward one step (plus the
double step from the starting layer), then the 8 forward captures. -/
def pawnMoves (piece : Piece) (b : BoardState) : List Move :=
  let moveZ := piece.z + pawnZDir piece.color
  let forward : List Move :=
    if isWithinBounds piece.x piece.y moveZ && (b piece.x piece.y moveZ).isNone then
      let single : Move := ⟨piece.x, piece.y, moveZ, false, none⟩
      let startLayer : Int := if piece.color == .white then 1 else 6
      if piece.z == startLayer then
        let doubleMoveZ := piece.z + pawnZDir piece.color * 2
        if isWithinBounds piece.x piece.y doubleMoveZ &&
            (b piece.x piece.y doubleMoveZ).isNone && (b piece.x piece.y moveZ).isNone then
          [single, ⟨piece.x, piece.y, doubleMoveZ, false, none⟩]
        else [single]
      else [single]
    else []
  let captures : List Move :=
    pawnCaptureDirections.filterMap fun d =>
      if isWithinBounds (piece.x + d.1) (piece.y + d.2) (piece.z + pawnZDir piece.color) then
        match b (piece.x + d.1) (piece.y + d.2) (piece.z + pawnZDir piece.color) with
        | some target =>
          if target.color != piece.color then
            some ⟨piece.x + d.1, piece.y + d.2, piece.z + pawnZDir piece.color, true, none⟩
          else none
        | none => none
      else none
  forward ++ captures

/-- The knight branch of `calculateValidMoves`: the 24 leap offsets,
keeping empty or enemy-occupied destinations. -/
def knightBranchMoves (piece : Piece) (b : BoardState) : List Move :=
  knightOffsets.filterMap fun d =>
    if isWithinBounds (piece.x + d.1) (piece.y + d.2.1) (piece.z + d.2.2) then
      match b (piece.x + d.1) (piece.y + d.2.1) (piece.z + d.2.2) with
      | some target =>
        if target.color != piece.color then
          some ⟨piece.x + d.1, piece.y + d.2.1, piece.z + d.2.2, true, none⟩
        else none
      | none => some ⟨piece.x + d.1, piece.y + d.2.1, piece.z + d.2.2, false, none⟩
    else none

/-- The orthogonal unit directions (`|dx|+|dy|+|dz| === 1` filter). -/
def orthogonalDirections : List (Int × Int × Int) :=
  all3DDirections.filter fun d => d.1.natAbs + d.2.1.natAbs + d.2.2.natAbs == 1

/-- The non-orthogonal ("diagonal") unit directions (`> 1` filter). -/
def diagonalDirections : List (Int × Int × Int) :=
  all3DDirections.filter fun d => decide (d.1.natAbs + d.2.1.natAbs + d.2.2.natAbs > 1)

/-- The ray-direction set per sliding kind, deduplicated as in the source
(the JS `Set` of joined strings keeps first occurrences in order). -/
def rayDirections (t : PieceType) : List (Int × Int × Int) :=
  ((if t == .R || t == .Q || t == .K then orthogonalDirections else []) ++
    (if t == .B || t == .Q || t == .K then diagonalDirections else [])).eraseDups

/-- `maxDistance`: kings slide a single step, all others up to `SIZE`. -/
def maxDistance (t : PieceType) : Nat := if t == .K then 1 else 8

/-- One generator ray from `(sx,sy,sz)` along `(dx,dy,dz)`: step
`k, k+1, ...` while in bounds; empty cells yield quiet moves and the ray
continues, an enemy yields a capture and stops, an own piece stops.
`fuel` counts remaining iterations (the source runs `k = 1 .. maxDistance`). -/
def rayMoves (b : BoardState) (color : Color)
    (sx sy sz dx dy dz : Int) : Nat → Nat → List Move
  | _, 0 => []
  | k, fuel + 1 =>
    let tx := sx + dx * (k : Int)
    let ty := sy + dy * (k : Int)
    let tz := sz + dz * (k : Int)
    if isWithinBounds tx ty tz then
      match b tx ty tz with
      | some target =>
        if target.color != color then [⟨tx, ty, tz, true, none⟩] else []
      | none => ⟨tx, ty, tz, false, none⟩ :: rayMoves b color sx sy sz dx dy dz (k + 1) fuel
    else []

/-- The sliding part of the R/B/Q/K branch of `calculateValidMoves`. -/
def slidingMoves (piece : Piece) (b : BoardState) : List Move :=
  (rayDirections piece.type).flatMap fun d =>
    rayMoves b piece.color piece.x piece.y piece.z d.1 d.2.1 d.2.2 1 (maxDistance piece.type)

/-- The kingside branch of the castling block of `calculateValidMoves`:
an unmoved own rook at `x = 7`, cells 5 and 6 of the row empty, and
neither 5 nor 6 attacked by the opponent. -/
def kingsideCastle (piece : Piece) (b : BoardState) : List Move :=
  match b 7 piece.y piece.z with
  | some rook =>
    if rook.type == .R && !rook.hasMoved && rook.color == piece.color then
      if (b 5 piece.y piece.z).isNone && (b 6 piece.y piece.z).isNone then
        if !isSquareAttacked 5 piece.y piece.z piece.color.opp b &&
            !isSquareAttacked 6 piece.y piece.z piece.color.opp b then
          [⟨piece.x + 2, piece.y, piece.z, false, some .king⟩]
        else []
      else []
    else []
  | none => []

/-- The queenside branch of the castling block. -/
def queensideCastle (piece : Piece) (b : BoardState) : List Move :=
  match b 0 piece.y piece.z with
  | some rook =>
    if rook.type == .R && !rook.hasMoved && rook.color == piece.color then
      if (b 1 piece.y piece.z).isNone && (b 2 piece.y piece.z).isNone &&
          (b 3 piece.y piece.z).isNone then
        if !isSquareAttacked 2 piece.y piece.z piece.color.opp b &&
            !isSquareAttacked 3 piece.y piece.z piece.color.opp b then
          [⟨piece.x - 2, piece.y, piece.z, false, some .queen⟩]
        else []
      else []
    else []
  | none => []

/-- The guards of the castling block: kings only, `!hasMoved`, not in
check, on home `y = 3` (the source's `color === 'white' ? 3 : 3`) and
home `z` (0 for White, 7 for Black). -/
def castleMoves (piece : Piece) (b : BoardState) : List Move :=
  if piece.type == .K && !piece.hasMoved && !isKingInCheck piece.color b then
    if piece.y == (3 : Int) && piece.z == (if piece.color == .white then (0 : Int) else 7) then
      kingsideCastle piece b ++ queensideCastle piece b
    else []
  else []

/-- `calculateValidMoves` of `src/lib/gameLogic.ts`: dispatch on the
piece kind; the sliding family also gets the (internally guarded)
castling block. -/
def calculateValidMoves (piece : Piece) (b : BoardState) : List Move :=
  match piece.type with
  | .P => pawnMoves piece b
  | .N => knightBranchMoves piece b
  | _ => slidingMoves piece b ++ castleMoves piece b

/-- `MAJOR_PIECE_PATTERN` of `initializeBoardState` (rows indexed by `y`,
characters by `x`). -/
def MAJOR_PIECE_PATTERN : List String :=
  ["rnbrrbnr", "nnbnnbnn", "bbbqqbbb", "rnqqkqnr",
   "rnqqqqnr", "bbbqqbbb", "nnbnnbnn", "rnbrrbnr"]

/-- `PAWN_ROW` of `initializeBoardState`. -/
def PAWN_ROW : String := "pppppppp"

/-- The `char.toUpperCase()` cast of the source, as a partial decode of
the row characters into piece kinds (the patterns only hold these six). -/
def charToPieceType (c : Char) : Option PieceType :=
  if c == 'p' then some .P
  else if c == 'r' then some .R
  else if c == 'n' then some .N
  else if c == 'b' then some .B
  else if c == 'q' then some .Q
  else if c == 'k' then some .K
  else none

/-- The per-layer pattern choice of `initializeBoardState`: major layers
at `z = 0` and `z = 7`, pawn layers at `z = 1` and `z = 6`. -/
def layerPattern (z : Int) : Option (List String) :=
  if z == 0 then some MAJOR_PIECE_PATTERN
  else if z == 1 then some (List.replicate 8 PAWN_ROW)
  else if z == 6 then some (List.replicate 8 PAWN_ROW)
  else if z == 7 then some MAJOR_PIECE_PATTERN
  else none

/-- Kind and color of the piece `initializeBoardState` places at a cell
(`isWhite = z < 2`; a space character places nothing). -/
def initialPieceAt (x y z : Int) : Option (PieceType × Color) :=
  if isWithinBounds x y z then
    match layerPattern z with
    | some rows =>
      match rows.get? y.toNat with
      | some row =>
        match row.toList.get? x.toNat with
        | some c =>
          if c == ' ' then none
          else (charToPieceType c).map fun t =>
            (t, if z < 2 then Color.white else Color.black)
        | none => none
      | none => none
    | none => none
  else none

/-- `initializeBoardState` of `src/lib/gameLogic.ts`: each placed piece
carries its own cell coordinates and `hasMoved = false`. -/
def initializeBoardState : BoardState := fun x y z =>
  match initialPieceAt x y z with
  | some (t, c) => some ⟨t, c, x, y, z, false⟩
  | none => none

/-- The pending-promotion request (`promotionData` state of `src/App.tsx`). -/
structure PromotionData where
  piece : Piece
  x : Int
  y : Int
  z : Int
deriving DecidableEq, Repr

/-- The `gameStatus` string: `'active'`, or the terminal win message set
on king capture. -/
inductive GameStatus where
  | active
  | win (c : Color)
deriving DecidableEq, Repr

/-- The game-relevant React state of `src/App.tsx`, bundled: the board,
side to move, both captured-piece lists, status and pending promotion. -/
structure GameState where
  boardState : BoardState
  turn : Color
  capturedWhite : List Piece
  capturedBlack : List Piece
  gameStatus : GameStatus
  promotionData : Option PromotionData

/-- Writing one cell of the (wholesale-copied) board. -/
def setCell (b : BoardState) (cx cy cz : Int) (v : Option Piece) : BoardState :=
  fun x y z => if x = cx ∧ y = cy ∧ z = cz then v else b x y z

/-- `setCapturedPieces`: a captured piece is appended to the bucket named
by the mover's opponent color (which is the captured piece's own color). -/
def recordCapture (s : GameState) (moverColor : Color) (target : Piece) : GameState :=
  match moverColor with
  | .white => { s with capturedBlack := s.capturedBlack ++ [target] }
  | .black => { s with capturedWhite := s.capturedWhite ++ [target] }

/-- The capture bookkeeping of `executeMove` / `handlePromotion`: when
the destination held a piece, set the win status on a captured king and
append the piece to the opponent bucket; otherwise do nothing. -/
def captureBookkeeping (s : GameState) (piece : Piece) (targetPiece : Option Piece) : GameState :=
  match targetPiece with
  | some tp =>
    recordCapture (if tp.type == .K then { s with gameStatus := .win piece.color } else s)
      piece.color tp
  | none => s

/-- The board mutation block of `executeMove`: clear the origin, then
either place the moved piece, or — for a castle — place the king and
relocate the rook read from the corner of the destination row (the read
happens after the origin clear and king placement, as in the source). -/
def applyBoardMove (b : BoardState) (piece : Piece)
    (targetX targetY targetZ : Int) (move : Move) : BoardState :=
  let b1 := setCell b piece.x piece.y piece.z none
  match move.castle with
  | some side =>
    let movedKing : Piece :=
      { piece with x := targetX, y := targetY, z := targetZ, hasMoved := true }
    let bk := setCell b1 targetX targetY targetZ (some movedKing)
    match side with
    | .king =>
      match bk 7 targetY targetZ with
      | some rook =>
        let bk1 := setCell bk 7 targetY targetZ none
        let rook1 := { rook with x := targetX - 1, hasMoved := true }
        setCell bk1 (targetX - 1) targetY targetZ (some rook1)
      | none => bk
    | .queen =>
      match bk 0 targetY targetZ with
      | some rook =>
        let bk1 := setCell bk 0 targetY targetZ none
        let rook1 := { rook with x := targetX + 1, hasMoved := true }
        setCell bk1 (targetX + 1) targetY targetZ (some rook1)
      | none => bk
  | none =>
    setCell b1 targetX targetY targetZ
      (some { piece with x := targetX, y := targetY, z := targetZ, hasMoved := true })

/-- `executeMove` of `src/App.tsx`: a pawn reaching the opponent's back
layer only records `promotionData` and returns; otherwise capture
bookkeeping (with king-capture win), the board mutation, and the turn
flip. -/
def executeMove (s : GameState) (piece : Piece)
    (targetX targetY targetZ : Int) (move : Move) : GameState :=
  if piece.type == .P && targetZ == (if piece.color == .white then 7 else 0) then
    { s with promotionData := some ⟨piece, targetX, targetY, targetZ⟩ }
  else
    let s1 := captureBookkeeping s piece (s.boardState targetX targetY targetZ)
    { s1 with
      boardState := applyBoardMove s.boardState piece targetX targetY targetZ move,
      turn := s1.turn.opp }

/-- `handlePromotion` of `src/App.tsx`: with a pending promotion, clear
the pawn's origin, record a capture at the destination (read after the
origin clear), place a fresh piece of the chosen kind, flip the turn. -/
def handlePromotion (s : GameState) (promotedTo : PieceType) : GameState :=
  match s.promotionData with
  | none => s
  | some pd =>
    let b1 := setCell s.boardState pd.piece.x pd.piece.y pd.piece.z none
    let s1 := captureBookkeeping s pd.piece (b1 pd.x pd.y pd.z)
    { s1 with
      boardState := setCell b1 pd.x pd.y pd.z
        (some ⟨promotedTo, pd.piece.color, pd.x, pd.y, pd.z, true⟩),
      turn := s1.turn.opp, promotionData := none }

/-- The four choices offered by `PromotionModal`
(`src/components/PromotionModal.tsx`). -/
def promotionPieces : List PieceType := [.Q, .R, .B, .N]

/-- The board invariant: every stored piece's denormalized position
equals the cell indexing it ("at most one piece per cell" is inherent in
the cell-store representation). -/
def boardConsistent (b : BoardState) : Prop :=
  ∀ x y z p, b x y z = some p → p.x = x ∧ p.y = y ∧ p.z = z

/-- All pieces of the board sit inside the 8x8x8 cube (inherent in the
source's array-of-arrays representation). -/
def boardInBounds (b : BoardState) : Prop :=
  ∀ x y z p, b x y z = some p → isWithinBounds x y z = true

/-- The spec's claimed characterization of `isSquareAttacked`: some piece
of the attacker color has a generated move landing on the cell, except
pawns, whose threat is the 8 forward-diagonal offsets regardless of their
move list (pawn forward non-capture moves thereby ignored). -/
def generatorClaimsAttack (x y z : Int) (C : Color) (b : BoardState) : Prop :=
  ∃ px py pz p, b px py pz = some p ∧ p.color = C ∧
    ((p.type = PieceType.P ∧ ∃ d ∈ pawnCaptureDirections,
        px = x - d.1 ∧ py = y - d.2 ∧ pz = z - (if C = Color.white then 1 else -1)) ∨
      (p.type ≠ PieceType.P ∧ ∃ m ∈ calculateValidMoves p b,
        m.x = x ∧ m.y = y ∧ m.z = z))

/-- The repaired characterization: as `generatorClaimsAttack`, but castle
moves (which are not threats) are also ignored. -/
def generatorClaimsAttackNC (x y z : Int) (C : Color) (b : BoardState) : Prop :=
  ∃ px py pz p, b px py pz = some p ∧ p.color = C ∧
    ((p.type = PieceType.P ∧ ∃ d ∈ pawnCaptureDirections,
        px = x - d.1 ∧ py = y - d.2 ∧ pz = z - (if C = Color.white then 1 else -1)) ∨
      (p.type ≠ PieceType.P ∧ ∃ m ∈ calculateValidMoves p b,
        m.castle = none ∧ m.x = x ∧ m.y = y ∧ m.z = z))

/-- The board with no pieces at all. -/
def emptyBoard : BoardState := fun _ _ _ => none

/-- Test position: a lone white queen at `(3,3,3)`. -/
def queenBoard : BoardState := fun x y z =>
  if x = 3 ∧ y = 3 ∧ z = 3 then some ⟨.Q, .white, 3, 3, 3, false⟩ else none

/-- Test position: White king e-file analogue at `(0,0,0)` shielded from
the black rook at `(4,0,0)` by the white rook at `(2,0,0)`. -/
def selfCheckBoard : BoardState := fun x y z =>
  if x = 0 ∧ y = 0 ∧ z = 0 then some ⟨.K, .white, 0, 0, 0, false⟩
  else if x = 2 ∧ y = 0 ∧ z = 0 then some ⟨.R, .white, 2, 0, 0, false⟩
  else if x = 4 ∧ y = 0 ∧ z = 0 then some ⟨.R, .black, 4, 0, 0, false⟩
  else none

/-- Test position: an unmoved white king on its home cell `(4,3,0)` with
an unmoved kingside rook at `(7,3,0)`, nothing else. -/
def castleTestBoard : BoardState := fun x y z =>
  if x = 4 ∧ y = 3 ∧ z = 0 then some ⟨.K, .white, 4, 3, 0, false⟩
  else if x = 7 ∧ y = 3 ∧ z = 0 then some ⟨.R, .white, 7, 3, 0, false⟩
  else none

/-- `castleTestBoard` plus a black rook at `(6,3,5)`, which attacks the
castling destination `(6,3,0)` but neither `(5,3,0)` nor the king. -/
def castleTestBoardAttacked : BoardState := fun x y z =>
  if x = 4 ∧ y = 3 ∧ z = 0 then some ⟨.K, .white, 4, 3, 0, false⟩
  else if x = 7 ∧ y = 3 ∧ z = 0 then some ⟨.R, .white, 7, 3, 0, false⟩
  else if x = 6 ∧ y = 3 ∧ z = 5 then some ⟨.R, .black, 6, 3, 5, false⟩
  else none

/-- Test position: an unmoved white king at `(0,3,0)` (home row/layer but
displaced column), an unmoved rook at `(7,3,0)`, and an own pawn on the
castling destination `(2,3,0)`. -/
def cornerKingBoard : BoardState := fun x y z =>
  if x = 0 ∧ y = 3 ∧ z = 0 then some ⟨.K, .white, 0, 3, 0, false⟩
  else if x = 7 ∧ y = 3 ∧ z = 0 then some ⟨.R, .white, 7, 3, 0, false⟩
  else if x = 2 ∧ y = 3 ∧ z = 0 then some ⟨.P, .white, 2, 3, 0, false⟩
  else none

/-- Test position: a white knight at `(0,0,0)` defending the white pawn
at `(2,1,0)`. -/
def defendedPawnBoard : BoardState := fun x y z =>
  if x = 0 ∧ y = 0 ∧ z = 0 then some ⟨.N, .white, 0, 0, 0, false⟩
  else if x = 2 ∧ y = 1 ∧ z = 0 then some ⟨.P, .white, 2, 1, 0, false⟩
  else none

/-- Test position: an unmoved white king at `(1,3,0)`, an unmoved rook at
`(7,3,0)`, and a white pawn at `(4,3,0)` blocking the ray between the
rook and the castling destination `(3,3,0)`. -/
def displacedKingBoard : BoardState := fun x y z =>
  if x = 1 ∧ y = 3 ∧ z = 0 then some ⟨.K, .white, 1, 3, 0, false⟩
  else if x = 4 ∧ y = 3 ∧ z = 0 then some ⟨.P, .white, 4, 3, 0, false⟩
  else if x = 7 ∧ y = 3 ∧ z = 0 then some ⟨.R, .white, 7, 3, 0, false⟩
  else none

/-! ### Basic lemmas -/

lemma isWithinBounds_iff {x y z : Int} :
    isWithinBounds x y z = true ↔ 0 ≤ x ∧ x < 8 ∧ 0 ≤ y ∧ y < 8 ∧ 0 ≤ z ∧ z < 8 := by
  simp [isWithinBounds, SIZE, ge_iff_le, and_assoc]

lemma setCell_apply (b : BoardState) (cx cy cz x y z : Int) (v : Option Piece) :
    setCell b cx cy cz v x y z = if x = cx ∧ y = cy ∧ z = cz then v else b x y z := rfl

lemma boardConsistent_setCell {b : BoardState} (h : boardConsistent b)
    {cx cy cz : Int} {v : Option Piece}
    (hv : ∀ p, v = some p → p.x = cx ∧ p.y = cy ∧ p.z = cz) :
    boardConsistent (setCell b cx cy cz v) := by
  intro x y z p hp
  rw [setCell_apply] at hp
  by_cases hc : x = cx ∧ y = cy ∧ z = cz
  · rw [if_pos hc] at hp
    obtain ⟨h1, h2, h3⟩ := hc
    subst h1; subst h2; subst h3
    exact hv p hp
  · rw [if_neg hc] at hp
    exact h x y z p hp

lemma initializeBoardState_consistent : boardConsistent initializeBoardState := by
  intro x y z p hp
  unfold initializeBoardState at hp
  cases h : initialPieceAt x y z with
  | none => rw [h] at hp; exact absurd hp (by simp)
  | some tc =>
    obtain ⟨t, c⟩ := tc
    rw [h] at hp
    simp only [Option.some.injEq] at hp
    subst hp
    exact ⟨rfl, rfl, rfl⟩

lemma initializeBoardState_inBounds : boardInBounds initializeBoardState := by
  intro x y z p hp
  unfold initializeBoardState initialPieceAt at hp
  cases hb : isWithinBounds x y z with
  | true => rfl
  | false => rw [hb] at hp; exact absurd hp (by simp)

lemma emptyBoard_consistent : boardConsistent emptyBoard := by
  intro x y z p hp
  exact absurd hp (by simp [emptyBoard])

lemma emptyBoard_inBounds : boardInBounds emptyBoard := by
  intro x y z p hp
  exact absurd hp (by simp [emptyBoard])

/-! ### The applier preserves the board invariant (claim C5) -/

lemma captureBookkeeping_boardState (s : GameState) (piece : Piece) (t : Option Piece) :
    (captureBookkeeping s piece t).boardState = s.boardState := by
  cases t with
  | none => rfl
  | some tp =>
    unfold captureBookkeeping recordCapture
    cases piece.color <;> by_cases h : (tp.type == PieceType.K) = true <;> simp [h]

lemma captureBookkeeping_turn (s : GameState) (piece : Piece) (t : Option Piece) :
    (captureBookkeeping s piece t).turn = s.turn := by
  cases t with
  | none => rfl
  | some tp =>
    unfold captureBookkeeping recordCapture
    cases piece.color <;> by_cases h : (tp.type == PieceType.K) = true <;> simp [h]

lemma captureBookkeeping_promotionData (s : GameState) (piece : Piece) (t : Option Piece) :
    (captureBookkeeping s piece t).promotionData = s.promotionData := by
  cases t with
  | none => rfl
  | some tp =>
    unfold captureBookkeeping recordCapture
    cases piece.color <;> by_cases h : (tp.type == PieceType.K) = true <;> simp [h]

lemma applyBoardMove_consistent (b : BoardState) (piece : Piece)
    (tX tY tZ : Int) (move : Move) (h : boardConsistent b) :
    boardConsistent (applyBoardMove b piece tX tY tZ move) := by
  have hb1 : boardConsistent (setCell b piece.x piece.y piece.z none) :=
    boardConsistent_setCell h (by intro q hq; exact absurd hq (by simp))
  obtain ⟨mx, my, mz, mcap, mcastle⟩ := move
  cases mcastle with
  | none =>
    show boardConsistent (setCell _ tX tY tZ _)
    exact boardConsistent_setCell hb1 (by intro q hq; cases hq; exact ⟨rfl, rfl, rfl⟩)
  | some side =>
    have hbk : boardConsistent (setCell (setCell b piece.x piece.y piece.z none) tX tY tZ
        (some { piece with x := tX, y := tY, z := tZ, hasMoved := true })) :=
      boardConsistent_setCell hb1 (by intro q hq; cases hq; exact ⟨rfl, rfl, rfl⟩)
    cases side with
    | king =>
      show boardConsistent
        (match (setCell (setCell b piece.x piece.y piece.z none) tX tY tZ
            (some { piece with x := tX, y := tY, z := tZ, hasMoved := true })) 7 tY tZ with
          | some rook =>
            setCell (setCell _ 7 tY tZ none) (tX - 1) tY tZ
              (some { rook with x := tX - 1, hasMoved := true })
          | none => _)
      cases hr : (setCell (setCell b piece.x piece.y piece.z none) tX tY tZ
          (some { piece with x := tX, y := tY, z := tZ, hasMoved := true })) 7 tY tZ with
      | none => exact hbk
      | some rook =>
        have hcoord := hbk 7 tY tZ rook hr
        refine boardConsistent_setCell (boardConsistent_setCell hbk
          (by intro q hq; exact absurd hq (by simp))) ?_
        intro q hq
        cases hq
        exact ⟨rfl, hcoord.2.1, hcoord.2.2⟩
    | queen =>
      show boardConsistent
        (match (setCell (setCell b piece.x piece.y piece.z none) tX tY tZ
            (some { piece with x := tX, y := tY, z := tZ, hasMoved := true })) 0 tY tZ with
          | some rook =>
            setCell (setCell _ 0 tY tZ none) (tX + 1) tY tZ
              (some { rook with x := tX + 1, hasMoved := true })
          | none => _)
      cases hr : (setCell (setCell b piece.x piece.y piece.z none) tX tY tZ
          (some { piece with x := tX, y := tY, z := tZ, hasMoved := true })) 0 tY tZ with
      | none => exact hbk
      | some rook =>
        have hcoord := hbk 0 tY tZ rook hr
        refine boardConsistent_setCell (boardConsistent_setCell hbk
          (by intro q hq; exact absurd hq (by simp))) ?_
        intro q hq
        cases hq
        exact ⟨rfl, hcoord.2.1, hcoord.2.2⟩

lemma executeMove_boardState (s : GameState) (piece : Piece)
    (tX tY tZ : Int) (move : Move) :
    (executeMove s piece tX tY tZ move).boardState =
      if piece.type == PieceType.P && tZ == (if piece.color == Color.white then 7 else 0) then
        s.boardState
      else applyBoardMove s.boardState piece tX tY tZ move := by
  unfold executeMove
  cases hc : piece.type == PieceType.P && tZ == (if piece.color == Color.white then 7 else 0) with
  | true => rfl
  | false => rfl

lemma handlePromotion_boardState (s : GameState) (k : PieceType) :
    (handlePromotion s k).boardState =
      match s.promotionData with
      | none => s.boardState
      | some pd =>
        setCell (setCell s.boardState pd.piece.x pd.piece.y pd.piece.z none) pd.x pd.y pd.z
          (some ⟨k, pd.piece.color, pd.x, pd.y, pd.z, true⟩) := by
  unfold handlePromotion
  cases s.promotionData with
  | none => rfl
  | some pd => rfl

/-- C5: the board invariant (each cell at most one piece — inherent in the
cell-store representation — and each stored piece positioned exactly at
its own cell) holds for the initial layout and is preserved by every
`executeMove` commit (captures and castling included) and by every
`handlePromotion` completion. -/
theorem invariant_initial_and_preserved (s : GameState) (piece : Piece)
    (tX tY tZ : Int) (move : Move) (k : PieceType)
    (h : boardConsistent s.boardState) :
    boardConsistent initializeBoardState ∧
    boardConsistent (executeMove s piece tX tY tZ move).boardState ∧
    boardConsistent (handlePromotion s k).boardState := by
  refine ⟨initializeBoardState_consistent, ?_, ?_⟩
  · rw [executeMove_boardState]
    by_cases hc :
      (piece.type == PieceType.P && tZ == (if piece.color == Color.white then 7 else 0)) = true
    · rw [if_pos hc]; exact h
    · rw [if_neg hc]; exact applyBoardMove_consistent _ _ _ _ _ _ h
  · rw [handlePromotion_boardState]
    cases s.promotionData with
    | none => exact h
    | some pd =>
      refine boardConsistent_setCell (boardConsistent_setCell h ?_) ?_
      · intro q hq; exact absurd hq (by simp)
      · intro q hq; cases hq; exact ⟨rfl, rfl, rfl⟩

/-- Witness for C5 at a concrete input: the initial board is consistent,
and so is the result of pushing the pawn at `(0,0,1)` to `(0,0,2)`. -/
theorem invariant_initial_and_preserved_witness :
    boardConsistent (executeMove
      ⟨initializeBoardState, .white, [], [], .active, none⟩
      ⟨.P, .white, 0, 0, 1, false⟩ 0 0 2 ⟨0, 0, 2, false, none⟩).boardState :=
  (invariant_initial_and_preserved
    ⟨initializeBoardState, .white, [], [], .active, none⟩
    ⟨.P, .white, 0, 0, 1, false⟩ 0 0 2 ⟨0, 0, 2, false, none⟩ .Q
    initializeBoardState_consistent).2.1

/-! ### The two-phase promotion protocol (claims C6, C10) -/

lemma captureBookkeeping_white (s : GameState) (piece : Piece) (tp : Piece)
    (h : piece.color = Color.white) :
    (captureBookkeeping s piece (some tp)).capturedBlack = s.capturedBlack ++ [tp] ∧
    (captureBookkeeping s piece (some tp)).capturedWhite = s.capturedWhite := by
  unfold captureBookkeeping recordCapture
  rw [h]
  by_cases ht : (tp.type == PieceType.K) = true <;> simp [ht]

lemma captureBookkeeping_black (s : GameState) (piece : Piece) (tp : Piece)
    (h : piece.color = Color.black) :
    (captureBookkeeping s piece (some tp)).capturedWhite = s.capturedWhite ++ [tp] ∧
    (captureBookkeeping s piece (some tp)).capturedBlack = s.capturedBlack := by
  unfold captureBookkeeping recordCapture
  rw [h]
  by_cases ht : (tp.type == PieceType.K) = true <;> simp [ht]

lemma handlePromotion_some (s : GameState) (k : PieceType) (pd : PromotionData)
    (hpd : s.promotionData = some pd) :
    handlePromotion s k =
      { captureBookkeeping s pd.piece
          ((setCell s.boardState pd.piece.x pd.piece.y pd.piece.z none) pd.x pd.y pd.z) with
        boardState := setCell (setCell s.boardState pd.piece.x pd.piece.y pd.piece.z none)
          pd.x pd.y pd.z (some ⟨k, pd.piece.color, pd.x, pd.y, pd.z, true⟩),
        turn := (captureBookkeeping s pd.piece
          ((setCell s.boardState pd.piece.x pd.piece.y pd.piece.z none) pd.x pd.y pd.z)).turn.opp,
        promotionData := none } := by
  unfold handlePromotion
  rw [hpd]

/-- C6: a pawn move into the opponent's back layer makes `executeMove`
return the state unchanged except for the recorded promotion request (no
board, turn, captured-list or status mutation); `handlePromotion` then
commits: origin cleared, a fresh piece of the chosen kind placed at the
destination with `hasMoved = true`, any capture recorded in the opponent
bucket, and the turn flipped. -/
theorem promotion_two_phase (s : GameState) (piece : Piece)
    (tX tY tZ : Int) (move : Move) (k : PieceType) :
    (piece.type = PieceType.P → tZ = (if piece.color = Color.white then 7 else 0) →
      executeMove s piece tX tY tZ move =
        { s with promotionData := some ⟨piece, tX, tY, tZ⟩ }) ∧
    (∀ pd, s.promotionData = some pd →
      (handlePromotion s k).boardState =
        setCell (setCell s.boardState pd.piece.x pd.piece.y pd.piece.z none) pd.x pd.y pd.z
          (some ⟨k, pd.piece.color, pd.x, pd.y, pd.z, true⟩) ∧
      (handlePromotion s k).turn = s.turn.opp ∧
      (handlePromotion s k).promotionData = none ∧
      (∀ tp, (setCell s.boardState pd.piece.x pd.piece.y pd.piece.z none) pd.x pd.y pd.z = some tp →
        (pd.piece.color = Color.white →
          (handlePromotion s k).capturedBlack = s.capturedBlack ++ [tp] ∧
          (handlePromotion s k).capturedWhite = s.capturedWhite) ∧
        (pd.piece.color = Color.black →
          (handlePromotion s k).capturedWhite = s.capturedWhite ++ [tp] ∧
          (handlePromotion s k).capturedBlack = s.capturedBlack)) ∧
      ((setCell s.boardState pd.piece.x pd.piece.y pd.piece.z none) pd.x pd.y pd.z = none →
        (handlePromotion s k).capturedWhite = s.capturedWhite ∧
        (handlePromotion s k).capturedBlack = s.capturedBlack)) := by
  constructor
  · intro hP hz
    have hb : (piece.type == PieceType.P &&
        tZ == (if piece.color == Color.white then 7 else 0)) = true := by
      simp [hP, hz]
    unfold executeMove
    rw [if_pos hb]
  · intro pd hpd
    rw [handlePromotion_some s k pd hpd]
    refine ⟨rfl, by rw [captureBookkeeping_turn], rfl, ?_, ?_⟩
    · intro tp htp
      rw [htp]
      constructor
      · intro hw
        exact captureBookkeeping_white s pd.piece tp hw
      · intro hbk
        exact ⟨(captureBookkeeping_black s pd.piece tp hbk).1,
          (captureBookkeeping_black s pd.piece tp hbk).2⟩
    · intro htp
      rw [htp]
      exact ⟨rfl, rfl⟩

/-- Witness for C6 at a concrete input: the white pawn at `(0,0,6)`
moving to `(0,0,7)` only records the promotion request. -/
theorem promotion_two_phase_witness :
    executeMove ⟨emptyBoard, .white, [], [], .active, none⟩
        ⟨.P, .white, 0, 0, 6, true⟩ 0 0 7 ⟨0, 0, 7, false, none⟩ =
      { boardState := emptyBoard, turn := .white, capturedWhite := [], capturedBlack := [],
        gameStatus := .active,
        promotionData := some ⟨⟨.P, .white, 0, 0, 6, true⟩, 0, 0, 7⟩ } :=
  (promotion_two_phase ⟨emptyBoard, .white, [], [], .active, none⟩
    ⟨.P, .white, 0, 0, 6, true⟩ 0 0 7 ⟨0, 0, 7, false, none⟩ .Q).1 rfl rfl

/-- C10: `handlePromotion` validates nothing: whatever kind is supplied —
all six, King and Pawn included — a piece of exactly that kind is placed
at the destination; only the `PromotionModal` presentation layer
restricts the offer to Queen/Rook/Bishop/Knight. -/
theorem promotion_unvalidated (s : GameState) (k : PieceType) (pd : PromotionData)
    (hpd : s.promotionData = some pd) :
    (handlePromotion s k).boardState pd.x pd.y pd.z =
      some ⟨k, pd.piece.color, pd.x, pd.y, pd.z, true⟩ ∧
    PieceType.P ∉ promotionPieces ∧ PieceType.K ∉ promotionPieces := by
  refine ⟨?_, by decide, by decide⟩
  rw [handlePromotion_some s k pd hpd]
  show setCell _ pd.x pd.y pd.z _ pd.x pd.y pd.z = _
  rw [setCell_apply, if_pos ⟨rfl, rfl, rfl⟩]

/-- Witness for C10 at a concrete input: a pending white promotion at
`(5,5,7)` completed with kind King places a white King there. -/
theorem promotion_unvalidated_witness :
    (handlePromotion
        ⟨emptyBoard, .white, [], [], .active, some ⟨⟨.P, .white, 5, 5, 6, true⟩, 5, 5, 7⟩⟩
        .K).boardState 5 5 7 = some ⟨.K, .white, 5, 5, 7, true⟩ :=
  (promotion_unvalidated
    ⟨emptyBoard, .white, [], [], .active, some ⟨⟨.P, .white, 5, 5, 6, true⟩, 5, 5, 7⟩⟩
    .K ⟨⟨.P, .white, 5, 5, 6, true⟩, 5, 5, 7⟩ rfl).1

/-! ### Round-trip of the applier (claim C8) -/

lemma applyBoardMove_noncastle (b : BoardState) (piece : Piece)
    (tX tY tZ : Int) (move : Move) (h : move.castle = none) :
    applyBoardMove b piece tX tY tZ move =
      setCell (setCell b piece.x piece.y piece.z none) tX tY tZ
        (some { piece with x := tX, y := tY, z := tZ, hasMoved := true }) := by
  unfold applyBoardMove
  rw [h]

/-- C8: applying a non-castle, non-promotion, non-capture move from cell
A to cell B and then the exact inverse displacement from B back to A
returns the board to its prior state at every cell, except that the moved
piece now carries `hasMoved = true`. -/
theorem move_roundtrip (s : GameState) (p : Piece) (tX tY tZ : Int) (m1 m2 : Move)
    (hp : s.boardState p.x p.y p.z = some p)
    (hdest : s.boardState tX tY tZ = none)
    (hm1 : m1.castle = none) (hm2 : m2.castle = none)
    (hnp1 : ¬(p.type = PieceType.P ∧ tZ = (if p.color = Color.white then 7 else 0)))
    (hnp2 : ¬(p.type = PieceType.P ∧ p.z = (if p.color = Color.white then 7 else 0)))
    (cx cy cz : Int) :
    (executeMove (executeMove s p tX tY tZ m1)
        { p with x := tX, y := tY, z := tZ, hasMoved := true } p.x p.y p.z m2).boardState cx cy cz =
      if cx = p.x ∧ cy = p.y ∧ cz = p.z then some { p with hasMoved := true }
      else s.boardState cx cy cz := by
  have hne : ¬(tX = p.x ∧ tY = p.y ∧ tZ = p.z) := by
    intro hc
    obtain ⟨h1, h2, h3⟩ := hc
    rw [h1, h2, h3, hp] at hdest
    exact absurd hdest (by simp)
  have hb1 : ¬((p.type == PieceType.P &&
      tZ == (if p.color == Color.white then 7 else 0)) = true) := by
    simpa using hnp1
  have hb2 : ¬(((({ p with x := tX, y := tY, z := tZ, hasMoved := true } : Piece).type
        == PieceType.P) &&
      p.z == (if ({ p with x := tX, y := tY, z := tZ, hasMoved := true } : Piece).color
        == Color.white then 7 else 0)) = true) := by
    simpa using hnp2
  rw [executeMove_boardState, if_neg hb2, executeMove_boardState, if_neg hb1,
    applyBoardMove_noncastle _ _ _ _ _ _ hm1, applyBoardMove_noncastle _ _ _ _ _ _ hm2]
  by_cases h1 : cx = p.x ∧ cy = p.y ∧ cz = p.z
  · rw [if_pos h1]
    show (setCell _ p.x p.y p.z _) cx cy cz = _
    rw [setCell_apply, if_pos h1]
  · rw [if_neg h1]
    show (setCell _ p.x p.y p.z _) cx cy cz = _
    rw [setCell_apply, if_neg h1]
    show (setCell _ tX tY tZ none) cx cy cz = _
    by_cases h2 : cx = tX ∧ cy = tY ∧ cz = tZ
    · rw [setCell_apply, if_pos h2, h2.1, h2.2.1, h2.2.2, hdest]
    · rw [setCell_apply, if_neg h2, setCell_apply, if_neg h2, setCell_apply, if_neg h1]

/-- Witness for C8 at a concrete input: move the lone white queen from
`(3,3,3)` to `(3,4,3)` and back; the cell `(3,3,3)` again holds the queen,
now with `hasMoved = true`. -/
theorem move_roundtrip_witness :
    (executeMove
        (executeMove ⟨queenBoard, .white, [], [], .active, none⟩
          ⟨.Q, .white, 3, 3, 3, false⟩ 3 4 3 ⟨3, 4, 3, false, none⟩)
        ⟨.Q, .white, 3, 4, 3, true⟩ 3 3 3 ⟨3, 3, 3, false, none⟩).boardState 3 3 3 =
      some ⟨.Q, .white, 3, 3, 3, true⟩ := by
  have h := move_roundtrip ⟨queenBoard, .white, [], [], .active, none⟩
    ⟨.Q, .white, 3, 3, 3, false⟩ 3 4 3 ⟨3, 4, 3, false, none⟩ ⟨3, 3, 3, false, none⟩
    (by decide) (by decide) rfl rfl (by decide) (by decide) 3 3 3
  simpa using h

/-! ### `isKingInCheck` and the no-king default (claim C9) -/

lemma mem_allCells {x y z : Int} (h : isWithinBounds x y z = true) : (x, y, z) ∈ allCells := by
  rw [isWithinBounds_iff] at h
  obtain ⟨h1, h2, h3, h4, h5, h6⟩ := h
  have hx : x ∈ ([0, 1, 2, 3, 4, 5, 6, 7] : List Int) := by simp; omega
  have hy : y ∈ ([0, 1, 2, 3, 4, 5, 6, 7] : List Int) := by simp; omega
  have hz : z ∈ ([0, 1, 2, 3, 4, 5, 6, 7] : List Int) := by simp; omega
  simp only [allCells, List.mem_flatMap, List.mem_map]
  exact ⟨x, hx, y, hy, z, hz, rfl⟩

lemma findSome?_eq_some_of_unique {α β : Type} (l : List α) (f : α → Option β) (v : β)
    (hex : ∃ a ∈ l, f a = some v) (huniq : ∀ a ∈ l, f a = none ∨ f a = some v) :
    l.findSome? f = some v := by
  induction l with
  | nil => exact absurd hex (by simp)
  | cons a l ih =>
    rw [List.findSome?_cons]
    cases ha : f a with
    | some w =>
      cases huniq a (List.mem_cons_self a l) with
      | inl h => exact absurd (ha.symm.trans h) (by simp)
      | inr h => exact ha.symm.trans h
    | none =>
      apply ih
      · obtain ⟨a', ha', hfa'⟩ := hex
        cases List.mem_cons.mp ha' with
        | inl h => exact absurd (h ▸ hfa' : f a = some v) (by rw [ha]; simp)
        | inr h => exact ⟨a', h, hfa'⟩
      · intro a' ha'
        exact huniq a' (List.mem_cons_of_mem a ha')

lemma castleTestBoard_consistent : boardConsistent castleTestBoard := by
  intro x y z p hp
  unfold castleTestBoard at hp
  split_ifs at hp with h1 h2 <;> simp_all <;> simp [← hp]

/-- C9: with no king of the given color anywhere on the board,
`isKingInCheck` answers `false` (the NoKingFound condition is a
permissive default, not a failure); with a unique king of that color on
the board, `isKingInCheck` answers `isSquareAttacked` by the opposing
color at the king's cell. -/
theorem king_check_default (c : Color) (b : BoardState) (hcons : boardConsistent b) :
    ((∀ x y z p, b x y z = some p → p.type = PieceType.K → p.color = c → False) →
      isKingInCheck c b = false) ∧
    (∀ kx ky kz k, b kx ky kz = some k → k.type = PieceType.K → k.color = c →
      isWithinBounds kx ky kz = true →
      (∀ x y z p, b x y z = some p → p.type = PieceType.K → p.color = c →
        x = kx ∧ y = ky ∧ z = kz) →
      isKingInCheck c b = isSquareAttacked kx ky kz c.opp b) := by
  constructor
  · intro hno
    have hfk : findKing c b = none := by
      unfold findKing
      rw [List.findSome?_eq_none_iff]
      intro cell hcell
      cases hb : b cell.1 cell.2.1 cell.2.2 with
      | none => rfl
      | some p =>
        have : ¬((p.type == PieceType.K && p.color == c) = true) := by
          simp only [Bool.and_eq_true, beq_iff_eq]
          intro hc
          exact hno _ _ _ p hb hc.1 hc.2
        simp [this]
    unfold isKingInCheck
    rw [hfk]
  · intro kx ky kz k hk hkt hkc hkin huniq
    have hfk : findKing c b = some k := by
      unfold findKing
      apply findSome?_eq_some_of_unique
      · refine ⟨(kx, ky, kz), mem_allCells hkin, ?_⟩
        show (match b kx ky kz with
          | some piece =>
            if piece.type == PieceType.K && piece.color == c then some piece else none
          | none => none) = some k
        rw [hk]
        simp [hkt, hkc]
      · intro cell hcell
        cases hb : b cell.1 cell.2.1 cell.2.2 with
        | none => exact Or.inl rfl
        | some p =>
          by_cases hK : (p.type == PieceType.K && p.color == c) = true
          · right
            simp only [Bool.and_eq_true, beq_iff_eq] at hK
            have hcoords := huniq _ _ _ p hb hK.1 hK.2
            have hpk : p = k := by
              rw [hcoords.1, hcoords.2.1, hcoords.2.2, hk] at hb
              exact (Option.some.inj hb).symm
            subst hpk
            simp [hkt, hkc]
          · left
            simp [hK]
    unfold isKingInCheck
    rw [hfk]
    show isSquareAttacked k.x k.y k.z c.opp b = _
    have hc := hcons kx ky kz k hk
    rw [hc.1, hc.2.1, hc.2.2]

/-- Witness for C9: the empty board has no white king, so the check test
answers `false`; `castleTestBoard` has the unique white king at `(4,3,0)`,
so the check test reduces to an attack query there. -/
theorem king_check_default_witness :
    isKingInCheck Color.white emptyBoard = false ∧
    isKingInCheck Color.white castleTestBoard =
      isSquareAttacked 4 3 0 Color.white.opp castleTestBoard := by
  constructor
  · exact (king_check_default Color.white emptyBoard emptyBoard_consistent).1
      (fun x y z p h _ _ => by simp [emptyBoard] at h)
  · refine (king_check_default Color.white castleTestBoard castleTestBoard_consistent).2
      4 3 0 ⟨.K, .white, 4, 3, 0, false⟩ (by decide) rfl rfl (by decide) ?_
    intro x y z p hp ht hc
    unfold castleTestBoard at hp
    split_ifs at hp with h1 h2
    · exact h1
    · rw [← Option.some.inj hp] at ht
      exact absurd ht (by decide)

/-! ### Characterizing the castling block (claims C2, C3, C7) -/

lemma kingZ_eq (c : Color) :
    (if c == Color.white then (0 : Int) else 7) = (if c = Color.white then 0 else 7) := by
  cases c <;> rfl

lemma mem_kingsideCastle {p : Piece} {b : BoardState} {m : Move} :
    m ∈ kingsideCastle p b ↔
      (m = ⟨p.x + 2, p.y, p.z, false, some .king⟩ ∧
       (∃ r, b 7 p.y p.z = some r ∧ r.type = PieceType.R ∧ r.hasMoved = false ∧
         r.color = p.color) ∧
       b 5 p.y p.z = none ∧ b 6 p.y p.z = none ∧
       isSquareAttacked 5 p.y p.z p.color.opp b = false ∧
       isSquareAttacked 6 p.y p.z p.color.opp b = false) := by
  unfold kingsideCastle
  split
  next r hr =>
    by_cases h1 : (r.type == PieceType.R && !r.hasMoved && r.color == p.color) = true
    · rw [if_pos h1]
      simp only [Bool.and_eq_true, beq_iff_eq, Bool.not_eq_true'] at h1
      by_cases h2 : ((b 5 p.y p.z).isNone && (b 6 p.y p.z).isNone) = true
      · rw [if_pos h2]
        simp only [Bool.and_eq_true, Option.isNone_iff_eq_none] at h2
        by_cases h3 : (!isSquareAttacked 5 p.y p.z p.color.opp b &&
            !isSquareAttacked 6 p.y p.z p.color.opp b) = true
        · rw [if_pos h3]
          simp only [Bool.and_eq_true, Bool.not_eq_true'] at h3
          simp [hr, h1.1.1, h1.1.2, h1.2, h2.1, h2.2, h3.1, h3.2]
        · rw [if_neg h3]
          simp only [Bool.and_eq_true, Bool.not_eq_true', not_and_or] at h3
          simp only [List.not_mem_nil, false_iff, not_and]
          intro _ _ _ _ ha5 ha6
          rcases h3 with h | h <;> simp_all
      · rw [if_neg h2]
        simp only [Bool.and_eq_true, Option.isNone_iff_eq_none, not_and_or] at h2
        simp only [List.not_mem_nil, false_iff, not_and]
        intro _ _ h5 h6
        rcases h2 with h | h <;> simp_all
    · rw [if_neg h1]
      simp only [Bool.and_eq_true, beq_iff_eq, Bool.not_eq_true', not_and_or] at h1
      simp only [List.not_mem_nil, false_iff, not_and]
      intro _ hex
      obtain ⟨r', hr', hrt, hrm, hrc⟩ := hex
      rw [hr] at hr'
      obtain rfl : r = r' := Option.some.inj hr'
      rcases h1 with (h | h) | h <;> simp_all
  next hr => simp [hr]

lemma mem_queensideCastle {p : Piece} {b : BoardState} {m : Move} :
    m ∈ queensideCastle p b ↔
      (m = ⟨p.x - 2, p.y, p.z, false, some .queen⟩ ∧
       (∃ r, b 0 p.y p.z = some r ∧ r.type = PieceType.R ∧ r.hasMoved = false ∧
         r.color = p.color) ∧
       b 1 p.y p.z = none ∧ b 2 p.y p.z = none ∧ b 3 p.y p.z = none ∧
       isSquareAttacked 2 p.y p.z p.color.opp b = false ∧
       isSquareAttacked 3 p.y p.z p.color.opp b = false) := by
  unfold queensideCastle
  split
  next r hr =>
    by_cases h1 : (r.type == PieceType.R && !r.hasMoved && r.color == p.color) = true
    · rw [if_pos h1]
      simp only [Bool.and_eq_true, beq_iff_eq, Bool.not_eq_true'] at h1
      by_cases h2 : ((b 1 p.y p.z).isNone && (b 2 p.y p.z).isNone &&
          (b 3 p.y p.z).isNone) = true
      · rw [if_pos h2]
        simp only [Bool.and_eq_true, Option.isNone_iff_eq_none] at h2
        by_cases h3 : (!isSquareAttacked 2 p.y p.z p.color.opp b &&
            !isSquareAttacked 3 p.y p.z p.color.opp b) = true
        · rw [if_pos h3]
          simp only [Bool.and_eq_true, Bool.not_eq_true'] at h3
          simp [hr, h1.1.1, h1.1.2, h1.2, h2.1.1, h2.1.2, h2.2, h3.1, h3.2]
        · rw [if_neg h3]
          simp only [Bool.and_eq_true, Bool.not_eq_true', not_and_or] at h3
          simp only [List.not_mem_nil, false_iff, not_and]
          intro _ _ _ _ _ ha2 ha3
          rcases h3 with h | h <;> simp_all
      · rw [if_neg h2]
        simp only [Bool.and_eq_true, Option.isNone_iff_eq_none, not_and_or] at h2
        simp only [List.not_mem_nil, false_iff, not_and]
        intro _ _ h1e h2e h3e
        rcases h2 with (h | h) | h <;> simp_all
    · rw [if_neg h1]
      simp only [Bool.and_eq_true, beq_iff_eq, Bool.not_eq_true', not_and_or] at h1
      simp only [List.not_mem_nil, false_iff, not_and]
      intro _ hex
      obtain ⟨r', hr', hrt, hrm, hrc⟩ := hex
      rw [hr] at hr'
      obtain rfl : r = r' := Option.some.inj hr'
      rcases h1 with (h | h) | h <;> simp_all
  next hr => simp [hr]

lemma mem_castleMoves_iff {p : Piece} {b : BoardState} {m : Move} :
    m ∈ castleMoves p b ↔
      p.type = PieceType.K ∧ p.hasMoved = false ∧ isKingInCheck p.color b = false ∧
      p.y = 3 ∧ p.z = (if p.color = Color.white then 0 else 7) ∧
      (m ∈ kingsideCastle p b ∨ m ∈ queensideCastle p b) := by
  unfold castleMoves
  by_cases h1 : (p.type == PieceType.K && !p.hasMoved && !isKingInCheck p.color b) = true
  · rw [if_pos h1]
    simp only [Bool.and_eq_true, beq_iff_eq, Bool.not_eq_true'] at h1
    by_cases h2 : (p.y == (3 : Int) &&
        p.z == (if p.color == Color.white then (0 : Int) else 7)) = true
    · rw [if_pos h2]
      simp only [Bool.and_eq_true, beq_iff_eq, kingZ_eq] at h2
      simp [h1.1.1, h1.1.2, h1.2, h2.1, h2.2]
    · rw [if_neg h2]
      simp only [Bool.and_eq_true, beq_iff_eq, kingZ_eq, not_and_or] at h2
      simp only [List.not_mem_nil, false_iff, not_and]
      intro _ _ _ hy hz
      rcases h2 with h | h <;> simp_all
  · rw [if_neg h1]
    simp only [Bool.and_eq_true, beq_iff_eq, Bool.not_eq_true', not_and_or] at h1
    simp only [List.not_mem_nil, false_iff, not_and]
    intro ht hm hc
    rcases h1 with (h | h) | h <;> simp_all

lemma rayMoves_castle_none (b : BoardState) (color : Color) (sx sy sz dx dy dz : Int) :
    ∀ (fuel k : Nat) (m : Move),
      m ∈ rayMoves b color sx sy sz dx dy dz k fuel → m.castle = none := by
  intro fuel
  induction fuel with
  | zero => intro k m hm; exact absurd hm (by simp [rayMoves])
  | succ n ih =>
    intro k m hm
    simp only [rayMoves] at hm
    split at hm
    · split at hm
      · split at hm
        · rw [List.mem_singleton] at hm; subst hm; rfl
        · exact absurd hm (by simp)
      · rcases List.mem_cons.mp hm with h | h
        · subst h; rfl
        · exact ih (k + 1) m h
    · exact absurd hm (by simp)

lemma slidingMoves_castle_none {p : Piece} {b : BoardState} {m : Move}
    (hm : m ∈ slidingMoves p b) : m.castle = none := by
  unfold slidingMoves at hm
  rw [List.mem_flatMap] at hm
  obtain ⟨d, _, hmm⟩ := hm
  exact rayMoves_castle_none b p.color p.x p.y p.z d.1 d.2.1 d.2.2 _ _ m hmm

lemma calculateValidMoves_eq_sliding (p : Piece) (b : BoardState)
    (h : p.type = PieceType.R ∨ p.type = PieceType.B ∨ p.type = PieceType.Q ∨
      p.type = PieceType.K) :
    calculateValidMoves p b = slidingMoves p b ++ castleMoves p b := by
  unfold calculateValidMoves
  rcases h with h | h | h | h <;> rw [h]

/-- C2: a king's kingside castle move (to `x+2`, tagged `king`) is
generated exactly when the king is unmoved, not in check, on its home
`y = 3` and `z` (0 White / 7 Black), an unmoved own rook sits at `x = 7`
of that row, cells 5 and 6 are empty, and neither 5 nor 6 is attacked by
the opponent; the queenside move (to `x-2`, tagged `queen`) exactly when,
under the same king conditions, an unmoved own rook sits at `x = 0`,
cells 1..3 are empty, and neither 2 nor 3 is attacked. -/
theorem castle_generation_iff (p : Piece) (b : BoardState) (hK : p.type = PieceType.K) :
    ((⟨p.x + 2, p.y, p.z, false, some CastleSide.king⟩ : Move) ∈ calculateValidMoves p b ↔
      (p.hasMoved = false ∧ isKingInCheck p.color b = false ∧
       p.y = 3 ∧ p.z = (if p.color = Color.white then 0 else 7) ∧
       (∃ r, b 7 p.y p.z = some r ∧ r.type = PieceType.R ∧ r.hasMoved = false ∧
         r.color = p.color) ∧
       b 5 p.y p.z = none ∧ b 6 p.y p.z = none ∧
       isSquareAttacked 5 p.y p.z p.color.opp b = false ∧
       isSquareAttacked 6 p.y p.z p.color.opp b = false)) ∧
    ((⟨p.x - 2, p.y, p.z, false, some CastleSide.queen⟩ : Move) ∈ calculateValidMoves p b ↔
      (p.hasMoved = false ∧ isKingInCheck p.color b = false ∧
       p.y = 3 ∧ p.z = (if p.color = Color.white then 0 else 7) ∧
       (∃ r, b 0 p.y p.z = some r ∧ r.type = PieceType.R ∧ r.hasMoved = false ∧
         r.color = p.color) ∧
       b 1 p.y p.z = none ∧ b 2 p.y p.z = none ∧ b 3 p.y p.z = none ∧
       isSquareAttacked 2 p.y p.z p.color.opp b = false ∧
       isSquareAttacked 3 p.y p.z p.color.opp b = false)) := by
  rw [calculateValidMoves_eq_sliding p b (Or.inr (Or.inr (Or.inr hK)))]
  constructor
  · rw [List.mem_append]
    constructor
    · rintro (h | h)
      · exact absurd (slidingMoves_castle_none h) (by simp)
      · obtain ⟨_, hm, hc, hy, hz, hside⟩ := mem_castleMoves_iff.mp h
        rcases hside with hks | hqs
        · obtain ⟨_, hrook, h5, h6, ha5, ha6⟩ := mem_kingsideCastle.mp hks
          exact ⟨hm, hc, hy, hz, hrook, h5, h6, ha5, ha6⟩
        · exact absurd (mem_queensideCastle.mp hqs).1 (by simp)
    · rintro ⟨hm, hc, hy, hz, hrook, h5, h6, ha5, ha6⟩
      right
      exact mem_castleMoves_iff.mpr ⟨hK, hm, hc, hy, hz,
        Or.inl (mem_kingsideCastle.mpr ⟨rfl, hrook, h5, h6, ha5, ha6⟩)⟩
  · rw [List.mem_append]
    constructor
    · rintro (h | h)
      · exact absurd (slidingMoves_castle_none h) (by simp)
      · obtain ⟨_, hm, hc, hy, hz, hside⟩ := mem_castleMoves_iff.mp h
        rcases hside with hks | hqs
        · exact absurd (mem_kingsideCastle.mp hks).1 (by simp)
        · obtain ⟨_, hrook, h1, h2, h3, ha2, ha3⟩ := mem_queensideCastle.mp hqs
          exact ⟨hm, hc, hy, hz, hrook, h1, h2, h3, ha2, ha3⟩
    · rintro ⟨hm, hc, hy, hz, hrook, h1, h2, h3, ha2, ha3⟩
      right
      exact mem_castleMoves_iff.mpr ⟨hK, hm, hc, hy, hz,
        Or.inr (mem_queensideCastle.mpr ⟨rfl, hrook, h1, h2, h3, ha2, ha3⟩)⟩

/-- Witness for C2 at a concrete input: on `castleTestBoard` all kingside
conditions hold, so the castle move to `(6,3,0)` is generated. -/
theorem castle_generation_iff_witness :
    (⟨4 + 2, 3, 0, false, some CastleSide.king⟩ : Move) ∈
      calculateValidMoves ⟨.K, .white, 4, 3, 0, false⟩ castleTestBoard :=
  ((castle_generation_iff ⟨.K, .white, 4, 3, 0, false⟩ castleTestBoard rfl).1).mpr
    ⟨rfl, by decide, rfl, rfl,
      ⟨⟨.R, .white, 7, 3, 0, false⟩, by decide, rfl, rfl, rfl⟩,
      by decide, by decide, by decide, by decide⟩

/-- Counterexample to C3 as stated: on `castleTestBoardAttacked` every
kingside-castle condition holds except that the destination `(6,3,0)` is
attacked (the transit square 5 is not, the king is not in check), and the
castle move is NOT generated; on `castleTestBoard`, identical except for
the attacker, it IS generated — destination attack does influence
generation. -/
theorem castle_destination_influences_generation :
    isSquareAttacked 6 3 0 Color.black castleTestBoardAttacked = true ∧
    isSquareAttacked 5 3 0 Color.black castleTestBoardAttacked = false ∧
    isKingInCheck Color.white castleTestBoardAttacked = false ∧
    castleTestBoardAttacked 5 3 0 = none ∧ castleTestBoardAttacked 6 3 0 = none ∧
    (∃ r, castleTestBoardAttacked 7 3 0 = some r ∧ r.type = PieceType.R ∧
      r.hasMoved = false ∧ r.color = Color.white) ∧
    (⟨6, 3, 0, false, some CastleSide.king⟩ : Move) ∉
      calculateValidMoves ⟨.K, .white, 4, 3, 0, false⟩ castleTestBoardAttacked ∧
    (⟨6, 3, 0, false, some CastleSide.king⟩ : Move) ∈
      calculateValidMoves ⟨.K, .white, 4, 3, 0, false⟩ castleTestBoard :=
  ⟨by decide, by decide, by decide, by decide, by decide,
    ⟨⟨.R, .white, 7, 3, 0, false⟩, by decide, rfl, rfl, rfl⟩, by decide, by decide⟩

/-- C3 amended: the castling block checks the fixed squares 5 and 6
(kingside) resp. 2 and 3 (queenside) for enemy attack; for a king on its
initial column `x = 4` these include the destination squares `x+2 = 6`
and `x-2 = 2`, so a generated castle move implies its destination square
is NOT attacked by the opponent (only kings displaced from `x = 4` could
castle to an unchecked destination). -/
theorem castle_destination_is_checked (p : Piece) (b : BoardState)
    (hK : p.type = PieceType.K) (hx : p.x = 4) :
    ((⟨p.x + 2, p.y, p.z, false, some CastleSide.king⟩ : Move) ∈ calculateValidMoves p b →
      isSquareAttacked (p.x + 2) p.y p.z p.color.opp b = false) ∧
    ((⟨p.x - 2, p.y, p.z, false, some CastleSide.queen⟩ : Move) ∈ calculateValidMoves p b →
      isSquareAttacked (p.x - 2) p.y p.z p.color.opp b = false) := by
  rw [calculateValidMoves_eq_sliding p b (Or.inr (Or.inr (Or.inr hK)))]
  constructor
  · intro hmem
    rcases List.mem_append.mp hmem with h | h
    · exact absurd (slidingMoves_castle_none h) (by simp)
    · obtain ⟨_, _, _, _, _, hside⟩ := mem_castleMoves_iff.mp h
      rcases hside with hks | hqs
      · have ha6 := (mem_kingsideCastle.mp hks).2.2.2.2.2
        rw [hx]
        show isSquareAttacked 6 p.y p.z p.color.opp b = false
        exact ha6
      · exact absurd (mem_queensideCastle.mp hqs).1 (by simp)
  · intro hmem
    rcases List.mem_append.mp hmem with h | h
    · exact absurd (slidingMoves_castle_none h) (by simp)
    · obtain ⟨_, _, _, _, _, hside⟩ := mem_castleMoves_iff.mp h
      rcases hside with hks | hqs
      · exact absurd (mem_kingsideCastle.mp hks).1 (by simp)
      · have ha2 := (mem_queensideCastle.mp hqs).2.2.2.2.2.1
        rw [hx]
        show isSquareAttacked 2 p.y p.z p.color.opp b = false
        exact ha2

/-- Witness for the amended C3 at a concrete input: the kingside castle
move generated on `castleTestBoard` implies its destination `(6,3,0)` is
unattacked by Black. -/
theorem castle_destination_is_checked_witness :
    isSquareAttacked (4 + 2) 3 0 Color.white.opp castleTestBoard = false :=
  (castle_destination_is_checked ⟨.K, .white, 4, 3, 0, false⟩ castleTestBoard rfl rfl).1
    (by decide)

/-! ### Characterizing generator rays, knight and pawn branches -/

lemma mem_rayMoves (b : BoardState) (color : Color) (sx sy sz dx dy dz : Int) (m : Move) :
    ∀ (fuel k : Nat),
    m ∈ rayMoves b color sx sy sz dx dy dz k fuel ↔
      ∃ j : Nat, k ≤ j ∧ j < k + fuel ∧
        (∀ i : Nat, k ≤ i → i < j →
          isWithinBounds (sx + dx * (i : Int)) (sy + dy * (i : Int)) (sz + dz * (i : Int)) = true ∧
          b (sx + dx * (i : Int)) (sy + dy * (i : Int)) (sz + dz * (i : Int)) = none) ∧
        isWithinBounds (sx + dx * (j : Int)) (sy + dy * (j : Int)) (sz + dz * (j : Int)) = true ∧
        ((b (sx + dx * (j : Int)) (sy + dy * (j : Int)) (sz + dz * (j : Int)) = none ∧
          m = ⟨sx + dx * (j : Int), sy + dy * (j : Int), sz + dz * (j : Int), false, none⟩) ∨
         (∃ q, b (sx + dx * (j : Int)) (sy + dy * (j : Int)) (sz + dz * (j : Int)) = some q ∧
          q.color ≠ color ∧
          m = ⟨sx + dx * (j : Int), sy + dy * (j : Int), sz + dz * (j : Int), true, none⟩)) := by
  intro fuel
  induction fuel with
  | zero =>
    intro k
    constructor
    · intro hm; exact absurd hm (by simp [rayMoves])
    · rintro ⟨j, hj1, hj2, -⟩; omega
  | succ n ih =>
    intro k
    simp only [rayMoves]
    split
    next hb =>
      split
      next q heq =>
        by_cases hqc : (q.color != color) = true
        · rw [if_pos hqc]
          rw [bne_iff_ne] at hqc
          constructor
          · intro hm
            rw [List.mem_singleton] at hm
            exact ⟨k, le_refl k, by omega, fun i hi1 hi2 => by omega, hb,
              Or.inr ⟨q, heq, hqc, hm⟩⟩
          · rintro ⟨j, hj1, hj2, hint, hbj, hcase⟩
            rcases Nat.eq_or_lt_of_le hj1 with rfl | hlt
            · rcases hcase with ⟨hnone, _⟩ | ⟨q', hq', _, hmq⟩
              · rw [heq] at hnone; exact absurd hnone (by simp)
              · rw [List.mem_singleton, hmq]
            · exact absurd (hint k (le_refl k) hlt).2 (by rw [heq]; simp)
        · rw [if_neg hqc]
          rw [bne_iff_ne, not_not] at hqc
          constructor
          · intro hm; exact absurd hm (by simp)
          · rintro ⟨j, hj1, hj2, hint, hbj, hcase⟩
            rcases Nat.eq_or_lt_of_le hj1 with rfl | hlt
            · rcases hcase with ⟨hnone, _⟩ | ⟨q', hq', hne, _⟩
              · rw [heq] at hnone; exact absurd hnone (by simp)
              · rw [heq] at hq'
                obtain rfl : q = q' := Option.some.inj hq'
                exact absurd hqc hne
            · exact absurd (hint k (le_refl k) hlt).2 (by rw [heq]; simp)
      next heq =>
        rw [List.mem_cons, ih (k + 1)]
        constructor
        · rintro (hm | ⟨j, hj1, hj2, hint, hbj, hcase⟩)
          · exact ⟨k, le_refl k, by omega, fun i hi1 hi2 => by omega, hb, Or.inl ⟨heq, hm⟩⟩
          · refine ⟨j, by omega, by omega, fun i hi1 hi2 => ?_, hbj, hcase⟩
            rcases Nat.eq_or_lt_of_le hi1 with rfl | hlt
            · exact ⟨hb, heq⟩
            · exact hint i hlt hi2
        · rintro ⟨j, hj1, hj2, hint, hbj, hcase⟩
          rcases Nat.eq_or_lt_of_le hj1 with rfl | hlt
          · rcases hcase with ⟨_, hmq⟩ | ⟨q', hq', _, _⟩
            · exact Or.inl hmq
            · rw [heq] at hq'; exact absurd hq' (by simp)
          · exact Or.inr ⟨j, hlt, by omega, fun i hi1 hi2 => hint i (by omega) hi2, hbj, hcase⟩
    next hb =>
      constructor
      · intro hm; exact absurd hm (by simp)
      · rintro ⟨j, hj1, hj2, hint, hbj, hcase⟩
        rcases Nat.eq_or_lt_of_le hj1 with rfl | hlt
        · exact absurd hbj hb
        · exact absurd (hint k (le_refl k) hlt).1 hb

lemma mem_slidingMoves {p : Piece} {b : BoardState} {m : Move} :
    m ∈ slidingMoves p b ↔
      ∃ d ∈ rayDirections p.type,
        m ∈ rayMoves b p.color p.x p.y p.z d.1 d.2.1 d.2.2 1 (maxDistance p.type) := by
  unfold slidingMoves
  rw [List.mem_flatMap]

lemma mem_knightBranchMoves {p : Piece} {b : BoardState} {m : Move} :
    m ∈ knightBranchMoves p b ↔
      ∃ d ∈ knightOffsets,
        isWithinBounds (p.x + d.1) (p.y + d.2.1) (p.z + d.2.2) = true ∧
        ((b (p.x + d.1) (p.y + d.2.1) (p.z + d.2.2) = none ∧
          m = ⟨p.x + d.1, p.y + d.2.1, p.z + d.2.2, false, none⟩) ∨
         (∃ q, b (p.x + d.1) (p.y + d.2.1) (p.z + d.2.2) = some q ∧ q.color ≠ p.color ∧
          m = ⟨p.x + d.1, p.y + d.2.1, p.z + d.2.2, true, none⟩)) := by
  unfold knightBranchMoves
  rw [List.mem_filterMap]
  refine exists_congr fun d => and_congr_right fun hd => ?_
  split
  next hb =>
    split
    next q heq =>
      by_cases hqc : (q.color != p.color) = true
      · rw [if_pos hqc]
        rw [bne_iff_ne] at hqc
        constructor
        · intro hs
          exact ⟨hb, Or.inr ⟨q, heq, hqc, (Option.some.inj hs).symm⟩⟩
        · rintro ⟨_, ⟨hnone, _⟩ | ⟨q', hq', _, hmq⟩⟩
          · rw [heq] at hnone; exact absurd hnone (by simp)
          · rw [hmq]
      · rw [if_neg hqc]
        rw [bne_iff_ne, not_not] at hqc
        constructor
        · intro hs; exact absurd hs (by simp)
        · rintro ⟨_, ⟨hnone, _⟩ | ⟨q', hq', hne, _⟩⟩
          · rw [heq] at hnone; exact absurd hnone (by simp)
          · rw [heq] at hq'
            obtain rfl : q = q' := Option.some.inj hq'
            exact absurd hqc hne
    next heq =>
      constructor
      · intro hs
        exact ⟨hb, Or.inl ⟨heq, (Option.some.inj hs).symm⟩⟩
      · rintro ⟨_, ⟨_, hmq⟩ | ⟨q', hq', _, _⟩⟩
        · rw [hmq]
        · rw [heq] at hq'; exact absurd hq' (by simp)
  next hb =>
    constructor
    · intro hs; exact absurd hs (by simp)
    · rintro ⟨hb', -⟩; exact absurd hb' hb

lemma calculateValidMoves_pawn (p : Piece) (b : BoardState) (h : p.type = PieceType.P) :
    calculateValidMoves p b = pawnMoves p b := by
  unfold calculateValidMoves
  rw [h]

lemma calculateValidMoves_knight (p : Piece) (b : BoardState) (h : p.type = PieceType.N) :
    calculateValidMoves p b = knightBranchMoves p b := by
  unfold calculateValidMoves
  rw [h]

lemma pawnMoves_forward_sound {p : Piece} {b : BoardState} {m : Move} (zd : Int)
    (hm : m ∈ (if isWithinBounds p.x p.y (p.z + zd) && (b p.x p.y (p.z + zd)).isNone then
        if p.z == (if p.color == Color.white then (1 : Int) else 6) then
          if isWithinBounds p.x p.y (p.z + zd * 2) && (b p.x p.y (p.z + zd * 2)).isNone &&
              (b p.x p.y (p.z + zd)).isNone then
            [(⟨p.x, p.y, p.z + zd, false, none⟩ : Move), ⟨p.x, p.y, p.z + zd * 2, false, none⟩]
          else [⟨p.x, p.y, p.z + zd, false, none⟩]
        else [⟨p.x, p.y, p.z + zd, false, none⟩]
      else [])) :
    isWithinBounds m.x m.y m.z = true ∧ ∀ q, b m.x m.y m.z = some q → q.color ≠ p.color := by
  split at hm
  next hfw =>
    try simp only [Bool.and_eq_true, Option.isNone_iff_eq_none] at hfw
    have hone : ∀ hmm : m = (⟨p.x, p.y, p.z + zd, false, none⟩ : Move),
        isWithinBounds m.x m.y m.z = true ∧
          ∀ q, b m.x m.y m.z = some q → q.color ≠ p.color := by
      rintro rfl
      exact ⟨hfw.1, fun q hq => by rw [hfw.2] at hq; exact absurd hq (by simp)⟩
    split at hm
    all_goals try split at hm
    all_goals first
      | (rw [List.mem_singleton] at hm
         exact hone hm)
      | (split at hm
         next hdb =>
           try simp only [Bool.and_eq_true, Option.isNone_iff_eq_none] at hdb
           simp only [List.mem_cons, List.mem_singleton, List.not_mem_nil, or_false] at hm
           rcases hm with rfl | rfl
           · exact hone rfl
           · exact ⟨hdb.1.1, fun q hq => by rw [hdb.1.2] at hq; exact absurd hq (by simp)⟩
         next =>
           rw [List.mem_singleton] at hm
           exact hone hm)
  next => exact absurd hm (by simp)

lemma pawnMoves_sound {p : Piece} {b : BoardState} {m : Move} (hm : m ∈ pawnMoves p b) :
    isWithinBounds m.x m.y m.z = true ∧ ∀ q, b m.x m.y m.z = some q → q.color ≠ p.color := by
  simp only [pawnMoves] at hm
  rw [List.mem_append] at hm
  rcases hm with hm | hm
  · exact pawnMoves_forward_sound (pawnZDir p.color) hm
  · rw [List.mem_filterMap] at hm
    obtain ⟨d, hd, hfd⟩ := hm
    split at hfd
    next hb =>
      split at hfd
      next q heq =>
        split at hfd
        next hne =>
          rw [bne_iff_ne] at hne
          obtain rfl : m = _ := (Option.some.inj hfd).symm
          exact ⟨hb, fun q' hq' => by
            rw [heq] at hq'
            rw [← Option.some.inj hq']
            exact hne⟩
        next => exact absurd hfd (by simp)
      next heq => exact absurd hfd (by simp)
    next => exact absurd hfd (by simp)

lemma slidingMoves_sound {p : Piece} {b : BoardState} {m : Move} (hm : m ∈ slidingMoves p b) :
    isWithinBounds m.x m.y m.z = true ∧ ∀ q, b m.x m.y m.z = some q → q.color ≠ p.color := by
  obtain ⟨d, hd, hr⟩ := mem_slidingMoves.mp hm
  obtain ⟨j, _, _, _, hbj, hcase⟩ :=
    (mem_rayMoves b p.color p.x p.y p.z d.1 d.2.1 d.2.2 m (maxDistance p.type) 1).mp hr
  rcases hcase with ⟨hnone, rfl⟩ | ⟨q, hq, hne, rfl⟩
  · exact ⟨hbj, fun q hq => by rw [hnone] at hq; exact absurd hq (by simp)⟩
  · exact ⟨hbj, fun q' hq' => by
      rw [hq] at hq'
      rw [← Option.some.inj hq']
      exact hne⟩

lemma castleMoves_sound_at4 {p : Piece} {b : BoardState} {m : Move}
    (hm : m ∈ castleMoves p b) (hx : p.x = 4) :
    isWithinBounds m.x m.y m.z = true ∧ ∀ q, b m.x m.y m.z = some q → q.color ≠ p.color := by
  obtain ⟨_, _, _, hy, hz, hside⟩ := mem_castleMoves_iff.mp hm
  have h42 : (4 : Int) + 2 = 6 := by norm_num
  have h42' : (4 : Int) - 2 = 2 := by norm_num
  rcases hside with hks | hqs
  · obtain ⟨rfl, _, _, h6, _, _⟩ := mem_kingsideCastle.mp hks
    constructor
    · show isWithinBounds (p.x + 2) p.y p.z = true
      rw [hx, hy, h42]
      by_cases hc : p.color = Color.white
      · rw [hz, if_pos hc]; decide
      · rw [hz, if_neg hc]; decide
    · intro q hq
      show q.color ≠ p.color
      rw [show (⟨p.x + 2, p.y, p.z, false, some CastleSide.king⟩ : Move).x = p.x + 2 from rfl,
        hx, h42] at hq
      rw [h6] at hq
      exact absurd hq (by simp)
  · obtain ⟨rfl, _, _, h2, _, _, _⟩ := mem_queensideCastle.mp hqs
    constructor
    · show isWithinBounds (p.x - 2) p.y p.z = true
      rw [hx, hy, h42']
      by_cases hc : p.color = Color.white
      · rw [hz, if_pos hc]; decide
      · rw [hz, if_neg hc]; decide
    · intro q hq
      show q.color ≠ p.color
      rw [show (⟨p.x - 2, p.y, p.z, false, some CastleSide.queen⟩ : Move).x = p.x - 2 from rfl,
        hx, h42'] at hq
      rw [h2] at hq
      exact absurd hq (by simp)

lemma cornerKingBoard_consistent : boardConsistent cornerKingBoard := by
  intro x y z p hp
  unfold cornerKingBoard at hp
  split_ifs at hp with h1 h2 h3 <;> simp_all <;> simp [← hp]

/-- Counterexample to C7 as stated: on `cornerKingBoard` the unmoved
white king at `(0,3,0)` passes every kingside eligibility test (fixed
cells 5,6 are empty and unattacked, unmoved rook at 7), so the generator
emits the castle move to `(2,3,0)` — a cell occupied by a white pawn,
the mover's own color. -/
theorem castle_onto_own_piece :
    (⟨2, 3, 0, false, some CastleSide.king⟩ : Move) ∈
      calculateValidMoves ⟨.K, .white, 0, 3, 0, false⟩ cornerKingBoard ∧
    cornerKingBoard 2 3 0 = some ⟨.P, .white, 2, 3, 0, false⟩ ∧
    (⟨.P, .white, 2, 3, 0, false⟩ : Piece).color = Color.white ∧
    cornerKingBoard 0 3 0 = some ⟨.K, .white, 0, 3, 0, false⟩ ∧
    boardConsistent cornerKingBoard :=
  ⟨by decide, by decide, rfl, by decide, cornerKingBoard_consistent⟩

/-- C7 amended: every generated move has an in-bounds destination never
occupied by an own-color piece, for all non-castle moves unconditionally,
and for castle moves provided the king stands on its initial column
`x = 4` (a displaced king's castle move can land on an own piece, see the
counterexample). -/
theorem moves_inbounds_no_own_capture (p : Piece) (b : BoardState) (m : Move)
    (hm : m ∈ calculateValidMoves p b) (hcx : m.castle = none ∨ p.x = 4) :
    isWithinBounds m.x m.y m.z = true ∧ ∀ q, b m.x m.y m.z = some q → q.color ≠ p.color := by
  have hslide : ∀ (ht : p.type = PieceType.R ∨ p.type = PieceType.B ∨
      p.type = PieceType.Q ∨ p.type = PieceType.K),
      isWithinBounds m.x m.y m.z = true ∧
        ∀ q, b m.x m.y m.z = some q → q.color ≠ p.color := by
    intro ht
    rw [calculateValidMoves_eq_sliding p b ht] at hm
    rcases List.mem_append.mp hm with h | h
    · exact slidingMoves_sound h
    · rcases hcx with hc | hx4
      · obtain ⟨_, _, _, _, _, hside⟩ := mem_castleMoves_iff.mp h
        rcases hside with hks | hqs
        · rw [(mem_kingsideCastle.mp hks).1] at hc
          exact absurd hc (by simp)
        · rw [(mem_queensideCastle.mp hqs).1] at hc
          exact absurd hc (by simp)
      · exact castleMoves_sound_at4 h hx4
  cases hpt : p.type with
  | P =>
    rw [calculateValidMoves_pawn p b hpt] at hm
    exact pawnMoves_sound hm
  | N =>
    rw [calculateValidMoves_knight p b hpt] at hm
    obtain ⟨d, hd, hb, hcase⟩ := mem_knightBranchMoves.mp hm
    rcases hcase with ⟨hnone, rfl⟩ | ⟨q, hq, hne, rfl⟩
    · exact ⟨hb, fun q hq => by rw [hnone] at hq; exact absurd hq (by simp)⟩
    · exact ⟨hb, fun q' hq' => by
        rw [hq] at hq'
        rw [← Option.some.inj hq']
        exact hne⟩
  | R => exact hslide (Or.inl hpt)
  | B => exact hslide (Or.inr (Or.inl hpt))
  | Q => exact hslide (Or.inr (Or.inr (Or.inl hpt)))
  | K => exact hslide (Or.inr (Or.inr (Or.inr hpt)))

/-- Witness for the amended C7 at a concrete input: the queen move from
`(3,3,3)` to `(3,4,3)` on `queenBoard` is in bounds and does not land on
an own piece. -/
theorem moves_inbounds_no_own_capture_witness :
    isWithinBounds (3 : Int) 4 3 = true ∧
    ∀ q, queenBoard 3 4 3 = some q → q.color ≠ Color.white :=
  moves_inbounds_no_own_capture ⟨.Q, .white, 3, 3, 3, false⟩ queenBoard
    ⟨3, 4, 3, false, none⟩ (by decide) (Or.inl rfl)

/-! ### Characterizing the attack detector (claim C4) -/

lemma pawnZDir_eq (c : Color) : pawnZDir c = (if c = Color.white then 1 else -1) := by
  cases c <;> rfl

lemma match_piece_pred_eq_true (o : Option Piece) (f : Piece → Bool) :
    (match o with | some piece => f piece | none => false) = true ↔
      ∃ q, o = some q ∧ f q = true := by
  cases o <;> simp

lemma isSquareAttacked_eq_true_iff {x y z : Int} {C : Color} {b : BoardState} :
    isSquareAttacked x y z C b = true ↔
      ((∃ d ∈ pawnCaptureDirections,
          isWithinBounds (x - d.1) (y - d.2) (z - pawnZDir C) = true ∧
          ∃ q, b (x - d.1) (y - d.2) (z - pawnZDir C) = some q ∧
            q.type = PieceType.P ∧ q.color = C) ∨
       (∃ d ∈ knightOffsets,
          isWithinBounds (x - d.1) (y - d.2.1) (z - d.2.2) = true ∧
          ∃ q, b (x - d.1) (y - d.2.1) (z - d.2.2) = some q ∧
            q.type = PieceType.N ∧ q.color = C) ∨
       (∃ d ∈ all3DDirections, attackRay b C x y z d.1 d.2.1 d.2.2 1 7 = true)) := by
  unfold isSquareAttacked
  simp only [Bool.or_eq_true, List.any_eq_true, Bool.and_eq_true, match_piece_pred_eq_true,
    beq_iff_eq]
  constructor
  · rintro ((⟨d, hd, hb, q, hq, hqq⟩ | ⟨d, hd, hb, q, hq, hqq⟩) | h)
    · exact Or.inl ⟨d, hd, hb, q, hq, hqq⟩
    · exact Or.inr (Or.inl ⟨d, hd, hb, q, hq, hqq⟩)
    · exact Or.inr (Or.inr h)
  · rintro (⟨d, hd, hb, q, hq, hqq⟩ | ⟨d, hd, hb, q, hq, hqq⟩ | h)
    · exact Or.inl (Or.inl ⟨d, hd, hb, q, hq, hqq⟩)
    · exact Or.inl (Or.inr ⟨d, hd, hb, q, hq, hqq⟩)
    · exact Or.inr h

lemma attackRay_eq_true_iff (b : BoardState) (C : Color) (x y z dx dy dz : Int) :
    ∀ (fuel k : Nat),
    attackRay b C x y z dx dy dz k fuel = true ↔
      ∃ j : Nat, k ≤ j ∧ j < k + fuel ∧
        (∀ i : Nat, k ≤ i → i < j →
          isWithinBounds (x + dx * (i : Int)) (y + dy * (i : Int)) (z + dz * (i : Int)) = true ∧
          b (x + dx * (i : Int)) (y + dy * (i : Int)) (z + dz * (i : Int)) = none) ∧
        isWithinBounds (x + dx * (j : Int)) (y + dy * (j : Int)) (z + dz * (j : Int)) = true ∧
        ∃ q, b (x + dx * (j : Int)) (y + dy * (j : Int)) (z + dz * (j : Int)) = some q ∧
          q.color = C ∧ attackQualifies q.type dx dy dz j = true := by
  intro fuel
  induction fuel with
  | zero =>
    intro k
    constructor
    · intro hm; simp [attackRay] at hm
    · rintro ⟨j, hj1, hj2, -⟩; omega
  | succ n ih =>
    intro k
    simp only [attackRay]
    split
    next hb =>
      split
      next q heq =>
        by_cases hqc : (q.color == C) = true
        · rw [if_pos hqc]
          rw [beq_iff_eq] at hqc
          constructor
          · intro hqual
            exact ⟨k, le_refl k, by omega, fun i hi1 hi2 => by omega, hb, q, heq, hqc, hqual⟩
          · rintro ⟨j, hj1, hj2, hint, hbj, q', hq', hc', hqual'⟩
            rcases Nat.eq_or_lt_of_le hj1 with rfl | hlt
            · rw [heq] at hq'
              obtain rfl : q = q' := Option.some.inj hq'
              exact hqual'
            · exact absurd (hint k (le_refl k) hlt).2 (by rw [heq]; simp)
        · rw [if_neg hqc]
          rw [beq_iff_eq] at hqc
          constructor
          · intro hf; exact absurd hf (by simp)
          · rintro ⟨j, hj1, hj2, hint, hbj, q', hq', hc', hqual'⟩
            rcases Nat.eq_or_lt_of_le hj1 with rfl | hlt
            · rw [heq] at hq'
              obtain rfl : q = q' := Option.some.inj hq'
              exact absurd hc' hqc
            · exact absurd (hint k (le_refl k) hlt).2 (by rw [heq]; simp)
      next heq =>
        rw [ih (k + 1)]
        constructor
        · rintro ⟨j, hj1, hj2, hint, hbj, hq⟩
          refine ⟨j, by omega, by omega, fun i hi1 hi2 => ?_, hbj, hq⟩
          rcases Nat.eq_or_lt_of_le hi1 with rfl | hlt
          · exact ⟨hb, heq⟩
          · exact hint i hlt hi2
        · rintro ⟨j, hj1, hj2, hint, hbj, hq⟩
          rcases Nat.eq_or_lt_of_le hj1 with rfl | hlt
          · obtain ⟨q', hq', -, -⟩ := hq
            rw [heq] at hq'
            exact absurd hq' (by simp)
          · exact ⟨j, hlt, by omega, fun i hi1 hi2 => hint i (by omega) hi2, hbj, hq⟩
    next hb =>
      constructor
      · intro hf; exact absurd hf (by simp)
      · rintro ⟨j, hj1, hj2, hint, hbj, -⟩
        rcases Nat.eq_or_lt_of_le hj1 with rfl | hlt
        · exact absurd hbj hb
        · exact absurd (hint k (le_refl k) hlt).1 hb

/-! Decidable facts about the literal direction tables. -/

lemma all3DDirections_neg_mem :
    ∀ d ∈ all3DDirections, (-d.1, -d.2.1, -d.2.2) ∈ all3DDirections := by decide

lemma all3DDirections_small :
    ∀ d ∈ all3DDirections, d.1.natAbs ≤ 1 ∧ d.2.1.natAbs ≤ 1 ∧ d.2.2.natAbs ≤ 1 ∧
      (d.1.natAbs = 1 ∨ d.2.1.natAbs = 1 ∨ d.2.2.natAbs = 1) := by decide

lemma orth_mem_rayDirections :
    ∀ d ∈ all3DDirections, d.1.natAbs + d.2.1.natAbs + d.2.2.natAbs = 1 →
      d ∈ rayDirections PieceType.R ∧ d ∈ rayDirections PieceType.Q ∧
        d ∈ rayDirections PieceType.K := by decide

lemma diag_mem_rayDirections :
    ∀ d ∈ all3DDirections, d.1.natAbs + d.2.1.natAbs + d.2.2.natAbs > 1 →
      d ∈ rayDirections PieceType.B ∧ d ∈ rayDirections PieceType.Q ∧
        d ∈ rayDirections PieceType.K := by decide

lemma rayDirections_R_sound :
    ∀ d ∈ rayDirections PieceType.R, d ∈ all3DDirections ∧
      d.1.natAbs + d.2.1.natAbs + d.2.2.natAbs = 1 := by decide

lemma rayDirections_B_sound :
    ∀ d ∈ rayDirections PieceType.B, d ∈ all3DDirections ∧
      d.1.natAbs + d.2.1.natAbs + d.2.2.natAbs > 1 := by decide

lemma rayDirections_Q_sound :
    ∀ d ∈ rayDirections PieceType.Q, d ∈ all3DDirections := by decide

lemma rayDirections_K_sound :
    ∀ d ∈ rayDirections PieceType.K, d ∈ all3DDirections := by decide

/-! Arithmetic helpers for translating between a ray walked from the
target and the same ray walked from the attacking piece. -/

lemma ray_cell_shift (xx pp e : Int) (i j : Nat) (hij : i ≤ j)
    (h : xx = pp + e * (j : Int)) :
    xx + (-e) * (i : Int) = pp + e * ((j - i : Nat) : Int) := by
  have hc : ((j - i : Nat) : Int) = (j : Int) - (i : Int) := by omega
  rw [hc, h]; ring

lemma seg_step_le_seven (ta da : Int) (j : Nat) (hda : da.natAbs = 1)
    (h1 : 0 ≤ ta) (h2 : ta < 8) (h3 : 0 ≤ ta + da * (j : Int))
    (h4 : ta + da * (j : Int) < 8) : j ≤ 7 := by
  have : da = 1 ∨ da = -1 := by omega
  rcases this with rfl | rfl <;> omega

lemma seg_inbounds (ta da : Int) (i j : Nat) (hda : da.natAbs ≤ 1) (hij : i ≤ j)
    (h1 : 0 ≤ ta) (h2 : ta < 8) (h3 : 0 ≤ ta + da * (j : Int))
    (h4 : ta + da * (j : Int) < 8) :
    0 ≤ ta + da * (i : Int) ∧ ta + da * (i : Int) < 8 := by
  have : da = -1 ∨ da = 0 ∨ da = 1 := by omega
  rcases this with rfl | rfl | rfl <;> constructor <;> omega

lemma pawnCaptureDirections_nonzero :
    ∀ d ∈ pawnCaptureDirections, ¬(d.1 = 0 ∧ d.2 = 0) := by decide

/-- Counterexample to C4 as stated, in both directions of the iff.
On `defendedPawnBoard` the white knight "attacks" (defends) the cell
`(2,1,0)` holding the white pawn, yet no white piece has a generated move
landing there (moves never target own-color cells). On
`displacedKingBoard` the displaced king has a generated (castle) move
landing on `(3,3,0)`, yet the detector does not report that cell attacked
by White. -/
theorem attack_vs_move_list_counterexample :
    (isSquareAttacked 2 1 0 Color.white defendedPawnBoard = true ∧
      ¬generatorClaimsAttack 2 1 0 Color.white defendedPawnBoard) ∧
    (generatorClaimsAttack 3 3 0 Color.white displacedKingBoard ∧
      isSquareAttacked 3 3 0 Color.white displacedKingBoard = false) := by
  refine ⟨⟨by decide, ?_⟩, ⟨?_, by decide⟩⟩
  · rintro ⟨px, py, pz, p, hp, hpc, hcase⟩
    unfold defendedPawnBoard at hp
    split_ifs at hp with h1 h2
    · obtain ⟨rfl, rfl, rfl⟩ := h1
      obtain rfl : (⟨.N, .white, 0, 0, 0, false⟩ : Piece) = p := Option.some.inj hp
      rcases hcase with ⟨hpt, -⟩ | ⟨-, m, hm, hmx, hmy, hmz⟩
      · exact absurd hpt (by decide)
      · have hnone : ∀ mm ∈ calculateValidMoves (⟨.N, .white, 0, 0, 0, false⟩ : Piece)
            defendedPawnBoard, ¬(mm.x = 2 ∧ mm.y = 1 ∧ mm.z = 0) := by decide
        exact hnone m hm ⟨hmx, hmy, hmz⟩
    · obtain ⟨rfl, rfl, rfl⟩ := h2
      obtain rfl : (⟨.P, .white, 2, 1, 0, false⟩ : Piece) = p := Option.some.inj hp
      rcases hcase with ⟨-, d, hd, hx, hy, -⟩ | ⟨hpt, -⟩
      · refine pawnCaptureDirections_nonzero d hd ⟨by omega, by omega⟩
      · exact hpt rfl
  · refine ⟨1, 3, 0, ⟨.K, .white, 1, 3, 0, false⟩, by decide, rfl,
      Or.inr ⟨by decide, ⟨3, 3, 0, false, some .king⟩, by decide, rfl, rfl, rfl⟩⟩

lemma all3D_mem_rayDirections_QK :
    ∀ dd ∈ all3DDirections, dd ∈ rayDirections PieceType.Q ∧
      dd ∈ rayDirections PieceType.K := by decide

/-- C4 amended: under the representation invariants (pieces stored at
their own in-bounds cells) and for an in-bounds target cell not occupied
by a piece of the attacker color, `isSquareAttacked` holds iff some piece
of that color has a generated non-castle move landing on the cell, except
pawns, whose threat is the 8 forward-diagonal offsets independent of
their move list. -/
theorem attack_iff_generated_noncastle (x y z : Int) (C : Color) (b : BoardState)
    (hcons : boardConsistent b) (hbnd : boardInBounds b)
    (ht : isWithinBounds x y z = true)
    (hocc : ∀ q, b x y z = some q → q.color ≠ C) :
    isSquareAttacked x y z C b = true ↔ generatorClaimsAttackNC x y z C b := by
  rw [isSquareAttacked_eq_true_iff]
  constructor
  · rintro (⟨d, hd, hb, q, hq, hqt, hqc⟩ | ⟨d, hd, hb, q, hq, hqt, hqc⟩ | ⟨d, hd, hray⟩)
    · -- a pawn threat becomes the pawn-offset clause
      refine ⟨x - d.1, y - d.2, z - pawnZDir C, q, hq, hqc, Or.inl ⟨hqt, d, hd, rfl, rfl, ?_⟩⟩
      rw [pawnZDir_eq]
    · -- a knight threat: that knight has a generated move onto the cell
      have hco := hcons _ _ _ _ hq
      refine ⟨x - d.1, y - d.2.1, z - d.2.2, q, hq, hqc,
        Or.inr ⟨by rw [hqt]; decide, ?_⟩⟩
      rw [calculateValidMoves_knight q b hqt]
      have hex : q.x + d.1 = x := by rw [hco.1]; ring
      have hey : q.y + d.2.1 = y := by rw [hco.2.1]; ring
      have hez : q.z + d.2.2 = z := by rw [hco.2.2]; ring
      cases hbt : b x y z with
      | none =>
        refine ⟨⟨x, y, z, false, none⟩, ?_, rfl, rfl, rfl, rfl⟩
        exact mem_knightBranchMoves.mpr ⟨d, hd, by rw [hex, hey, hez]; exact ht,
          Or.inl ⟨by rw [hex, hey, hez]; exact hbt, by rw [hex, hey, hez]⟩⟩
      | some e =>
        have hne : e.color ≠ q.color := by rw [hqc]; exact hocc e hbt
        refine ⟨⟨x, y, z, true, none⟩, ?_, rfl, rfl, rfl, rfl⟩
        exact mem_knightBranchMoves.mpr ⟨d, hd, by rw [hex, hey, hez]; exact ht,
          Or.inr ⟨e, by rw [hex, hey, hez]; exact hbt, hne, by rw [hex, hey, hez]⟩⟩
    · -- a ray threat: the first piece along the ray slides back onto the cell
      obtain ⟨j, hj1, hj2, hint, hbj, q, hq, hqc, hqual⟩ :=
        (attackRay_eq_true_iff b C x y z d.1 d.2.1 d.2.2 7 1).mp hray
      have hco := hcons _ _ _ _ hq
      have hdneg : (-d.1, -d.2.1, -d.2.2) ∈ all3DDirections := all3DDirections_neg_mem d hd
      have hmain : ∀ (htyp : q.type = PieceType.R ∨ q.type = PieceType.B ∨
            q.type = PieceType.Q ∨ q.type = PieceType.K),
          ((-d.1, -d.2.1, -d.2.2) ∈ rayDirections q.type) →
          (j < 1 + maxDistance q.type) → (q.type ≠ PieceType.P) →
          generatorClaimsAttackNC x y z C b := by
        intro htyp hdir hjm hqp
        have e1 : q.x + (-d.1) * (j : Int) = x := by rw [hco.1]; ring
        have e2 : q.y + (-d.2.1) * (j : Int) = y := by rw [hco.2.1]; ring
        have e3 : q.z + (-d.2.2) * (j : Int) = z := by rw [hco.2.2]; ring
        have hintq : ∀ i : Nat, 1 ≤ i → i < j →
            isWithinBounds (q.x + -d.1 * (i : Int)) (q.y + -d.2.1 * (i : Int))
              (q.z + -d.2.2 * (i : Int)) = true ∧
            b (q.x + -d.1 * (i : Int)) (q.y + -d.2.1 * (i : Int))
              (q.z + -d.2.2 * (i : Int)) = none := by
          intro i hi1 hi2
          have s1 := ray_cell_shift q.x x d.1 i j (by omega) hco.1
          have s2 := ray_cell_shift q.y y d.2.1 i j (by omega) hco.2.1
          have s3 := ray_cell_shift q.z z d.2.2 i j (by omega) hco.2.2
          rw [s1, s2, s3]
          exact hint (j - i) (by omega) (by omega)
        refine ⟨_, _, _, q, hq, hqc, Or.inr ⟨hqp, ?_⟩⟩
        rw [calculateValidMoves_eq_sliding q b htyp]
        cases hbt : b x y z with
        | none =>
          refine ⟨⟨x, y, z, false, none⟩, ?_, rfl, rfl, rfl, rfl⟩
          refine List.mem_append_left _ (mem_slidingMoves.mpr
            ⟨(-d.1, -d.2.1, -d.2.2), hdir, ?_⟩)
          refine (mem_rayMoves b q.color q.x q.y q.z (-d.1) (-d.2.1) (-d.2.2) _
            (maxDistance q.type) 1).mpr ⟨j, hj1, by omega, hintq, ?_, Or.inl ⟨?_, ?_⟩⟩
          · rw [e1, e2, e3]; exact ht
          · rw [e1, e2, e3]; exact hbt
          · rw [e1, e2, e3]
        | some e =>
          have hne : e.color ≠ q.color := by rw [hqc]; exact hocc e hbt
          refine ⟨⟨x, y, z, true, none⟩, ?_, rfl, rfl, rfl, rfl⟩
          refine List.mem_append_left _ (mem_slidingMoves.mpr
            ⟨(-d.1, -d.2.1, -d.2.2), hdir, ?_⟩)
          refine (mem_rayMoves b q.color q.x q.y q.z (-d.1) (-d.2.1) (-d.2.2) _
            (maxDistance q.type) 1).mpr ⟨j, hj1, by omega, hintq, ?_,
              Or.inr ⟨e, ?_, hne, ?_⟩⟩
          · rw [e1, e2, e3]; exact ht
          · rw [e1, e2, e3]; exact hbt
          · rw [e1, e2, e3]
      simp only [attackQualifies, Bool.or_eq_true, Bool.and_eq_true, beq_iff_eq,
        decide_eq_true_eq] at hqual
      rcases hqual with ((hQ | ⟨hR, hsum⟩) | ⟨hB, hsum⟩) | ⟨hK, hjk⟩
      · refine hmain (Or.inr (Or.inr (Or.inl hQ))) ?_ ?_ (by rw [hQ]; decide)
        · rw [hQ]; exact (all3D_mem_rayDirections_QK _ hdneg).1
        · rw [hQ]; show j < 1 + 8; omega
      · have hsum' : (-d.1).natAbs + (-d.2.1).natAbs + (-d.2.2).natAbs = 1 := by
          simpa [Int.natAbs_neg] using hsum
        refine hmain (Or.inl hR) ?_ ?_ (by rw [hR]; decide)
        · rw [hR]; exact (orth_mem_rayDirections _ hdneg hsum').1
        · rw [hR]; show j < 1 + 8; omega
      · have hsum' : (-d.1).natAbs + (-d.2.1).natAbs + (-d.2.2).natAbs > 1 := by
          simpa [Int.natAbs_neg] using hsum
        refine hmain (Or.inr (Or.inl hB)) ?_ ?_ (by rw [hB]; decide)
        · rw [hB]; exact (diag_mem_rayDirections _ hdneg hsum').1
        · rw [hB]; show j < 1 + 8; omega
      · refine hmain (Or.inr (Or.inr (Or.inr hK))) ?_ ?_ (by rw [hK]; decide)
        · rw [hK]; exact (all3D_mem_rayDirections_QK _ hdneg).2
        · rw [hK]; show j < 1 + 1; omega
  · rintro ⟨px, py, pz, p, hp, hpc, hcase⟩
    have hco := hcons _ _ _ _ hp
    have hin := hbnd _ _ _ _ hp
    rcases hcase with ⟨hpt, d, hd, hx, hy, hz⟩ | ⟨hpt, m, hm, hmc, hmx, hmy, hmz⟩
    · -- pawn-offset clause → detector pawn clause
      rw [pawnZDir_eq] at *
      left
      refine ⟨d, hd, ?_, p, ?_, hpt, hpc⟩
      · rw [← hx, ← hy, ← hz]; exact hin
      · rw [← hx, ← hy, ← hz]; exact hp
    · have hslide : (p.type = PieceType.R ∨ p.type = PieceType.B ∨
          p.type = PieceType.Q ∨ p.type = PieceType.K) →
          ∃ dd ∈ all3DDirections, attackRay b C x y z dd.1 dd.2.1 dd.2.2 1 7 = true := by
        intro htyp
        rw [calculateValidMoves_eq_sliding p b htyp] at hm
        rcases List.mem_append.mp hm with hsm | hcm
        · obtain ⟨e, he, hray⟩ := mem_slidingMoves.mp hsm
          obtain ⟨j, hj1, hj2, hint, hbj, hcase3⟩ :=
            (mem_rayMoves b p.color p.x p.y p.z e.1 e.2.1 e.2.2 m
              (maxDistance p.type) 1).mp hray
          have hdest : m.x = p.x + e.1 * (j : Int) ∧ m.y = p.y + e.2.1 * (j : Int) ∧
              m.z = p.z + e.2.2 * (j : Int) := by
            rcases hcase3 with ⟨-, rfl⟩ | ⟨q', -, -, rfl⟩ <;> exact ⟨rfl, rfl, rfl⟩
          have hxe : x = p.x + e.1 * (j : Int) := by rw [← hmx, hdest.1]
          have hye : y = p.y + e.2.1 * (j : Int) := by rw [← hmy, hdest.2.1]
          have hze : z = p.z + e.2.2 * (j : Int) := by rw [← hmz, hdest.2.2]
          have heall : e ∈ all3DDirections := by
            rcases htyp with h | h | h | h
            · exact (rayDirections_R_sound e (h ▸ he)).1
            · exact (rayDirections_B_sound e (h ▸ he)).1
            · exact rayDirections_Q_sound e (h ▸ he)
            · exact rayDirections_K_sound e (h ▸ he)
          obtain ⟨hs1, hs2, hs3, hsax⟩ := all3DDirections_small e heall
          have htb := isWithinBounds_iff.mp ht
          have hpb := isWithinBounds_iff.mp hin
          have hj7 : j ≤ 7 := by
            rcases hsax with ha | ha | ha
            · exact seg_step_le_seven p.x e.1 j ha (hco.1 ▸ hpb.1) (hco.1 ▸ hpb.2.1)
                (hxe ▸ htb.1) (hxe ▸ htb.2.1)
            · exact seg_step_le_seven p.y e.2.1 j ha (hco.2.1 ▸ hpb.2.2.1)
                (hco.2.1 ▸ hpb.2.2.2.1) (hye ▸ htb.2.2.1) (hye ▸ htb.2.2.2.1)
            · exact seg_step_le_seven p.z e.2.2 j ha (hco.2.2 ▸ hpb.2.2.2.2.1)
                (hco.2.2 ▸ hpb.2.2.2.2.2) (hze ▸ htb.2.2.2.2.1) (hze ▸ htb.2.2.2.2.2)
          have e1 : x + -e.1 * (j : Int) = px := by rw [hxe, hco.1]; ring
          have e2 : y + -e.2.1 * (j : Int) = py := by rw [hye, hco.2.1]; ring
          have e3 : z + -e.2.2 * (j : Int) = pz := by rw [hze, hco.2.2]; ring
          refine ⟨(-e.1, -e.2.1, -e.2.2), all3DDirections_neg_mem e heall, ?_⟩
          refine (attackRay_eq_true_iff b C x y z (-e.1) (-e.2.1) (-e.2.2) 7 1).mpr
            ⟨j, hj1, by omega, fun i hi1 hi2 => ?_, ?_, p, ?_, hpc, ?_⟩
          · have s1 := ray_cell_shift x p.x e.1 i j (by omega) hxe
            have s2 := ray_cell_shift y p.y e.2.1 i j (by omega) hye
            have s3 := ray_cell_shift z p.z e.2.2 i j (by omega) hze
            rw [s1, s2, s3]
            exact hint (j - i) (by omega) (by omega)
          · rw [e1, e2, e3]; exact hin
          · rw [e1, e2, e3]; exact hp
          · rcases htyp with h | h | h | h
            · have hsum := (rayDirections_R_sound e (h ▸ he)).2
              simp [attackQualifies, h, Int.natAbs_neg, hsum]
            · have hsum := (rayDirections_B_sound e (h ▸ he)).2
              simp [attackQualifies, h, Int.natAbs_neg, hsum]
            · simp [attackQualifies, h]
            · have hj1' : j = 1 := by
                have hmd : maxDistance PieceType.K = 1 := rfl
                rw [h, hmd] at hj2
                omega
              simp [attackQualifies, h, hj1']
        · obtain ⟨-, -, -, -, -, hside⟩ := mem_castleMoves_iff.mp hcm
          rcases hside with hks | hqs
          · rw [(mem_kingsideCastle.mp hks).1] at hmc
            exact absurd hmc (by simp)
          · rw [(mem_queensideCastle.mp hqs).1] at hmc
            exact absurd hmc (by simp)
      cases hptc : p.type with
      | P => exact absurd hptc hpt
      | N =>
        rw [calculateValidMoves_knight p b hptc] at hm
        obtain ⟨o, ho, hob, hocase⟩ := mem_knightBranchMoves.mp hm
        have hdest : m.x = p.x + o.1 ∧ m.y = p.y + o.2.1 ∧ m.z = p.z + o.2.2 := by
          rcases hocase with ⟨-, rfl⟩ | ⟨e, -, -, rfl⟩ <;> exact ⟨rfl, rfl, rfl⟩
        have hex : x - o.1 = px := by rw [← hmx, hdest.1, hco.1]; ring
        have hey : y - o.2.1 = py := by rw [← hmy, hdest.2.1, hco.2.1]; ring
        have hez : z - o.2.2 = pz := by rw [← hmz, hdest.2.2, hco.2.2]; ring
        right; left
        refine ⟨o, ho, ?_, p, ?_, hptc, hpc⟩
        · rw [hex, hey, hez]; exact hin
        · rw [hex, hey, hez]; exact hp
      | R => exact Or.inr (Or.inr (hslide (Or.inl hptc)))
      | B => exact Or.inr (Or.inr (hslide (Or.inr (Or.inl hptc))))
      | Q => exact Or.inr (Or.inr (hslide (Or.inr (Or.inr (Or.inl hptc)))))
      | K => exact Or.inr (Or.inr (hslide (Or.inr (Or.inr (Or.inr hptc)))))

lemma castleTestBoard_inBounds : boardInBounds castleTestBoard := by
  intro x y z p hp
  unfold castleTestBoard at hp
  split_ifs at hp with h1 h2
  · obtain ⟨rfl, rfl, rfl⟩ := h1; decide
  · obtain ⟨rfl, rfl, rfl⟩ := h2; decide

/-- Witness for the amended C4 at a concrete input: on `castleTestBoard`
the cell `(6,3,0)` is white-attacked (by the rook at `(7,3,0)`), so some
white piece has a generated non-castle move landing there. -/
theorem attack_iff_generated_noncastle_witness :
    generatorClaimsAttackNC 6 3 0 Color.white castleTestBoard :=
  (attack_iff_generated_noncastle 6 3 0 Color.white castleTestBoard
    castleTestBoard_consistent castleTestBoard_inBounds (by decide)
    (fun q hq => by
      rw [show castleTestBoard 6 3 0 = none from by decide] at hq
      exact absurd hq (by simp))).mp (by decide)

/-! ### Pseudo-legality: self-check is not filtered (claim C1) -/

/-- C1: there is a piece, a board and a generated move whose application
leaves the mover's own king in check — the generator is pseudo-legal and
performs no self-check filtering (the white rook at `(2,0,0)` of
`selfCheckBoard` may step aside, exposing its king to the black rook). -/
theorem generator_allows_self_check :
    ∃ (p : Piece) (s : GameState) (m : Move),
      m ∈ calculateValidMoves p s.boardState ∧
      isKingInCheck p.color (executeMove s p m.x m.y m.z m).boardState = true := by
  refine ⟨⟨.R, .white, 2, 0, 0, false⟩, ⟨selfCheckBoard, .white, [], [], .active, none⟩,
    ⟨2, 1, 0, false, none⟩, ?_, ?_⟩
  · decide
  · decide

end ThreeDChess
